import Mathlib

/-
Verification of the mealie-organizer maintenance toolkit.

This file gives a shallow embedding, in Lean 4, of the parts of the Python
code base that the specification's testable properties talk about:

* `src/mealie_organizer/ingredient_parser.py` — the ingredient parsing and
  normalization pipeline (entity slimming, blank/suspicious detection,
  already-parsed detection, the per-recipe run loop with its API-call trace);
* `src/mealie_organizer/foods_manager.py`, `units_manager.py`,
  `tools_manager.py` — the shared checkpointed merge-apply loop of the
  taxonomy cleanup engines;
* `src/mealie_organizer/categorizer_core.py` — `parse_json_response`
  (the defensive JSON recovery), the cache pre-flight skip of
  `process_batch`, and the dry-run branch of `update_recipe_metadata`;
* `src/mealie_organizer/api_client.py` — `_build_retry_policy`.

JSON values are modelled by the inductive type `Json`; numbers are modelled
as rationals (`Rat`), which is exact for the zero-quantity comparisons the
code performs.  Remote calls are modelled by explicit environments (records
of response functions) and every run returns the list of API calls it
issued, so that mutation/dry-run properties are statements about the trace.
Python standard-library behaviour that the code leans on (string `strip`,
`re.sub` with the concrete patterns appearing in the source, `json.loads`)
is implemented on `List Char` following the documented semantics of those
exact patterns.
-/

namespace Mealie

/-- JSON values; numbers are modelled exactly as rationals. Objects are
association lists in insertion order (Python dicts). -/
inductive Json where
  | null : Json
  | bool (b : Bool) : Json
  | num (q : Rat) : Json
  | str (s : String) : Json
  | arr (items : List Json) : Json
  | obj (fields : List (String × Json)) : Json

mutual

/-- Structural equality of JSON values — the model of Python `==` on the
JSON-shaped data the code compares. -/
def jsonBEq : Json → Json → Bool
  | .null, .null => true
  | .bool a, .bool b => a = b
  | .num a, .num b => a = b
  | .str a, .str b => a = b
  | .arr a, .arr b => jsonListBEq a b
  | .obj a, .obj b => jsonFieldsBEq a b
  | _, _ => false

/-- Pointwise `jsonBEq` on lists. -/
def jsonListBEq : List Json → List Json → Bool
  | [], [] => true
  | x :: xs, y :: ys => jsonBEq x y && jsonListBEq xs ys
  | _, _ => false

/-- Pointwise `jsonBEq` on field lists. -/
def jsonFieldsBEq : List (String × Json) → List (String × Json) → Bool
  | [], [] => true
  | (k, v) :: xs, (k2, v2) :: ys => k = k2 && jsonBEq v v2 && jsonFieldsBEq xs ys
  | _, _ => false

end

/-- Python whitespace (`str.strip`, `\s`): space, tab, LF, CR, FF, VT. -/
def isPySpace (c : Char) : Bool :=
  c = ' ' ∨ c = '\t' ∨ c = '\n' ∨ c = '\x0d' ∨ c = '\x0c' ∨ c = '\x0b'

/-- Python `str.strip()` on a character list. -/
def pyStripL (l : List Char) : List Char :=
  ((l.dropWhile isPySpace).reverse.dropWhile isPySpace).reverse

/-- Python `str.strip()`. -/
def pyStrip (s : String) : String := String.mk (pyStripL s.data)

/-- Python `str.lower()` (ASCII portion, which is all the code compares). -/
def pyLower (s : String) : String := String.mk (s.data.map Char.toLower)

/-- Python `needle in haystack` substring test, on character lists. -/
def infixOfL (needle haystack : List Char) : Bool :=
  match haystack with
  | [] => needle.isEmpty
  | _ :: rest => needle.isPrefixOf haystack || infixOfL needle rest

/-- Python `needle in haystack` substring test on strings. -/
def pyContains (haystack needle : String) : Bool :=
  infixOfL needle.data haystack.data

/-- Python truthiness of a JSON value (`bool(x)`). -/
def truthy : Json → Bool
  | .null => false
  | .bool b => b
  | .num q => q ≠ 0
  | .str s => s ≠ ""
  | .arr items => ¬ items.isEmpty
  | .obj fields => ¬ fields.isEmpty

/-- Python `str(x)` on the scalar JSON values the code stringifies (ids and
names).  Containers never reach `str()` on the paths modelled here; for
them we return their `Repr` rendering as a placeholder. -/
def pyStr : Json → String
  | .null => "None"
  | .bool true => "True"
  | .bool false => "False"
  | .num q => if q.den = 1 then toString q.num else toString q
  | .str s => s
  | .arr _ => "<list>"
  | .obj _ => "<dict>"

/-- First binding of a key in an object's field list (Python dicts have
unique keys; lookup takes the first match). -/
def findField (fields : List (String × Json)) (key : String) : Option Json :=
  match fields with
  | [] => none
  | (k, v) :: rest => if k = key then some v else findField rest key

/-- Python `d.get(key)` (missing key gives `None`); non-objects give `None`
on the guarded paths modelled here. -/
def jget (j : Json) (key : String) : Json :=
  match j with
  | .obj fields => (findField fields key).getD .null
  | _ => .null

/-- Python `d.get(key, default)`. -/
def jgetD (j : Json) (key : String) (default : Json) : Json :=
  match j with
  | .obj fields => (findField fields key).getD default
  | _ => default

/-- Python `key in d`. -/
def hasKey (j : Json) (key : String) : Bool :=
  match j with
  | .obj fields => (findField fields key).isSome
  | _ => false

/-- `d[key] = v` on an association list: update in place if present
(keeping the key's position, as Python dicts do), else append. -/
def objSet (fields : List (String × Json)) (key : String) (v : Json) :
    List (String × Json) :=
  match fields with
  | [] => [(key, v)]
  | (k, w) :: rest =>
      if k = key then (k, v) :: rest else (k, w) :: objSet rest key v

/-- `d.pop(key, None)`: drop a key if present. -/
def objDrop (fields : List (String × Json)) (key : String) :
    List (String × Json) :=
  match fields with
  | [] => []
  | (k, w) :: rest => if k = key then rest else (k, w) :: objDrop rest key

/-- The pattern `str(entity.get(k) or "")`: falsy values become `""`. -/
def pyStrOr (v : Json) : String := if truthy v then pyStr v else ""

/-- Parse a decimal literal to an exact rational — the fragment of Python
`float(string)` the parsed payloads use (optional sign, digits, optional
fractional part). Anything else fails. -/
def parseDecimal (s : String) : Option Rat :=
  let l := pyStripL s.data
  let (sign, body) : Int × List Char :=
    match l with
    | '-' :: rest => (-1, rest)
    | '+' :: rest => (1, rest)
    | _ => (1, l)
  let intPart := body.takeWhile Char.isDigit
  let rest := body.dropWhile Char.isDigit
  let digitsVal : List Char → Nat :=
    fun ds => ds.foldl (fun acc c => acc * 10 + (c.toNat - 48)) 0
  match rest with
  | [] =>
      if intPart.isEmpty then none
      else some (sign * (digitsVal intPart : Int))
  | '.' :: fracRaw =>
      let frac := fracRaw.takeWhile Char.isDigit
      if (fracRaw.dropWhile Char.isDigit).isEmpty then
        if intPart.isEmpty ∧ frac.isEmpty then none
        else
          some ((sign : Rat) *
            ((digitsVal intPart : Rat) + (digitsVal frac : Rat) / ((10 : Rat) ^ frac.length)))
      else none
  | _ => none

/-- Python `float(value)` as an `Option`: numbers and booleans convert,
decimal strings parse, everything else raises (`none`). -/
def toFloatOpt : Json → Option Rat
  | .num q => some q
  | .bool b => some (if b then 1 else 0)
  | .str s => parseDecimal s
  | _ => none

/-- `value is None` on JSON-decoded data. -/
def isNull : Json → Bool
  | .null => true
  | _ => false

/-! ## ingredient_parser.py — pure helpers -/

/-- `SERVING_PHRASES` from `ingredient_parser.py`. -/
def SERVING_PHRASES : List String := ["for serving", "for garnish", "for dipping"]

/-- `ZERO_QTY_ALLOWED_UNITS` from `ingredient_parser.py`. -/
def ZERO_QTY_ALLOWED_UNITS : List String := ["pinch", "dash"]

/-- `slim_entity`: keep only a non-empty stripped `id` plus stripped `name`;
anything without a non-empty id (or not a dict) becomes `None`. -/
def slimEntity (entity : Json) : Option Json :=
  match entity with
  | .obj _ =>
      let entityId := pyStrip (pyStrOr (jget entity "id"))
      if entityId = "" then none
      else some (.obj [("id", .str entityId),
                       ("name", .str (pyStrip (pyStrOr (jget entity "name"))))])
  | _ => none

/-- `_quantity_value`: `float(value)` with failures collapsing to `0.0`. -/
def quantityValue (v : Json) : Rat := (toFloatOpt v).getD 0

/-- `_has_entity`. -/
def hasEntity (entity : Json) : Bool :=
  match entity with
  | .null => false
  | .obj _ =>
      pyStrip (pyStrOr (jget entity "id")) ≠ "" ∨
        pyStrip (pyStrOr (jget entity "name")) ≠ ""
  | _ => true

/-- `_entity_name`. -/
def entityName (entity : Json) : String :=
  match entity with
  | .obj _ => pyLower (pyStrip (pyStrOr (jget entity "name")))
  | _ => ""

/-- The `str(ingredient.get("note", "")).strip()` pattern. -/
def noteOf (ing : Json) : String := pyStrip (pyStr (jgetD ing "note" (.str "")))

/-- `_is_blank_ingredient`: no note, zero quantity, no food, no unit. -/
def isBlankIngredient (ing : Json) : Bool :=
  noteOf ing = "" ∧ quantityValue (jget ing "quantity") = 0 ∧
    ¬ hasEntity (jget ing "food") ∧ ¬ hasEntity (jget ing "unit")

/-- `_suspicion_reason`, faithfully following the control flow of the
source: blank lines and serving-phrase notes are exempt, then zero quantity
with a non-null unit is flagged unless the unit is inherently unitless or
the note says "to taste", then a null food with an empty note is flagged. -/
def suspicionReason (ing : Json) : Option String :=
  if isBlankIngredient ing then none
  else
    let note := pyLower (noteOf ing)
    if SERVING_PHRASES.any (fun phrase => pyContains note phrase) then none
    else
      let quantity := quantityValue (jget ing "quantity")
      let unit := jget ing "unit"
      let unitName := entityName unit
      if quantity = 0 ∧ ¬ isNull unit then
        if unitName ∈ ZERO_QTY_ALLOWED_UNITS ∨ pyContains note "to taste" then none
        else some "zero_qty_with_unit"
      else if isNull (jget ing "food") ∧ note = "" then some "missing_food_no_note"
      else none

/-- `_confidence`: `parsed_line.get("confidence") or {}` then
`.get("average", 0)` then `float` with failures collapsing to `0.0`. -/
def confidenceOf (parsedLine : Json) : Rat :=
  let confidence :=
    if truthy (jget parsedLine "confidence") then jget parsedLine "confidence"
    else Json.obj []
  (toFloatOpt (jgetD confidence "average" (.num 0))).getD 0

/-- The `"ingredients"` fallback block at the end of `extract_raw_lines`. -/
def extractFromIngredientsKey (recipeJson : Json) : List String :=
  if hasKey recipeJson "ingredients" then
    match jget recipeJson "ingredients" with
    | .arr items =>
        items.filterMap fun it =>
          match it with
          | .obj _ =>
              let text := pyStrip (pyStr (jgetD it "rawText" (.str "")))
              if text = "" then none else some text
          | _ => none
    | _ => []
  else []

/-- The first-truthy-of chain
`item.get("originalText") or item.get("rawText") or item.get("note") or
str(item.get("display") or "")` used for structured entries. -/
def structuredLineOf (it : Json) : String :=
  let cand :=
    if truthy (jget it "originalText") then jget it "originalText"
    else if truthy (jget it "rawText") then jget it "rawText"
    else if truthy (jget it "note") then jget it "note"
    else Json.str (pyStrOr (jget it "display"))
  pyStrip (pyStr cand)

/-- Shape test `isinstance(x, dict)`. -/
def isObjJ : Json → Bool
  | .obj _ => true
  | _ => false

/-- The generator body of
`all(item.get("food") is None for item in items if isinstance(item, dict))`:
non-dict entries are filtered out of the conjunction. -/
def entryFoodNull (it : Json) : Bool :=
  if isObjJ it then isNull (jget it "food") else true

/-- `extract_raw_lines`: raw string entries are stripped and kept;
structured (dict) entries raise `AlreadyParsed` (modelled as `.error ()`)
as soon as **some** dict entry carries a non-null food, otherwise their
display text is recovered; other shapes fall through to the
`"ingredients"` key. -/
def extractRawLines (recipeJson : Json) : Except Unit (List String) :=
  if hasKey recipeJson "recipeIngredient" then
    let itemsJ := jget recipeJson "recipeIngredient"
    match (if truthy itemsJ then itemsJ else .arr []) with
    | .arr [] => .ok []
    | .arr (first :: rest) =>
        let items := first :: rest
        match first with
        | .str _ =>
            .ok (items.filterMap fun it =>
              match it with
              | .str line =>
                  let text := pyStrip line
                  if text = "" then none else some text
              | _ => none)
        | .obj _ =>
            let allFoodNull := items.all entryFoodNull
            if ¬ allFoodNull then .error ()
            else
              .ok (items.filterMap fun it =>
                match it with
                | .obj _ =>
                    let text := structuredLineOf it
                    if text = "" then none else some text
                | _ => none)
        | _ => .ok (extractFromIngredientsKey recipeJson)
    | _ => .ok (extractFromIngredientsKey recipeJson)
  else .ok (extractFromIngredientsKey recipeJson)

lemma lengthDropWhileLe {α : Type} (p : α → Bool) :
    ∀ l : List α, (l.dropWhile p).length ≤ l.length := by
  intro l
  induction l with
  | nil => simp [List.dropWhile]
  | cons c rest ih =>
      by_cases h : p c = true
      · simp only [List.dropWhile, h]
        exact ih.trans (Nat.le_succ _)
      · simp [List.dropWhile, h]

/-- Collapse runs of whitespace to single spaces (`re.sub(r"\s+", " ", s)`). -/
def collapseWsL : List Char → List Char
  | [] => []
  | c :: rest =>
      if isPySpace c then ' ' :: collapseWsL (rest.dropWhile isPySpace)
      else c :: collapseWsL rest
termination_by l => l.length
decreasing_by
  · simpa using Nat.lt_succ_of_le (lengthDropWhileLe _ _)
  · simp

/-- `_normalize_line_text`.  The `FRACTION_TEXT_REPLACEMENTS` table in the
source maps every key to itself ("1/2" ↦ "1/2", …), so the replacement loop
is the identity and is not reproduced here. -/
def normalizeLineText (line : String) : String :=
  String.mk (pyStripL (collapseWsL (pyStripL line.data)))

/-- `len(s.split())`: number of maximal non-whitespace runs. -/
def countWordsL : List Char → Nat
  | [] => 0
  | c :: rest =>
      if isPySpace c then countWordsL rest
      else 1 + countWordsL (rest.dropWhile (fun d => ¬ isPySpace d))
termination_by l => l.length
decreasing_by
  · simp
  · simpa using Nat.lt_succ_of_le (lengthDropWhileLe _ _)

/-- `re.search(r"\d", s)` presence. -/
def hasDigit (s : String) : Bool := s.data.any Char.isDigit

/-- `NON_INGREDIENT_PREFIX_RE = ^(for|to)\s+` (case-insensitive) match. -/
def matchesForToHead (l : List Char) : Bool :=
  match l.map Char.toLower with
  | 'f' :: 'o' :: 'r' :: c :: _ => isPySpace c
  | 't' :: 'o' :: c :: _ => isPySpace c
  | _ => false

/-- `_is_non_ingredient_header`. -/
def isNonIngredientHeader (line : String) : Bool :=
  let stripped := pyStrip line
  if stripped = "" then true
  else if stripped.endsWith ":" ∧ countWordsL stripped.data ≤ 8 ∧ ¬ hasDigit stripped
    then true
  else if matchesForToHead stripped.data ∧ countWordsL stripped.data ≤ 8 ∧
      ¬ hasDigit stripped
    then true
  else false

/-- `sanitize_raw_lines`: normalize each line, dropping empties and
non-ingredient headers, counting the drops. -/
def sanitizeRawLines (lines : List String) : List String × Nat :=
  lines.foldl
    (fun acc raw =>
      let line := normalizeLineText raw
      if line = "" then (acc.1, acc.2 + 1)
      else if isNonIngredientHeader line then (acc.1, acc.2 + 1)
      else (acc.1 ++ [line], acc.2))
    ([], 0)

/-! ## API calls issued to the recipe manager

Every modelled run returns the chronological list of HTTP calls it issued,
so mutation/dry-run claims become statements about this trace. -/

/-- The REST calls of `api_client.py` that the modelled components issue. -/
inductive ApiCall where
  | getRecipes
  | getRecipe (slug : String)
  | parseIngredients (strategy : String) (lines : List String)
  | createFood (name : String)
  | patchRecipeIngredients (slug : String) (ingredients : List Json)
  | patchRecipe (slug : String)
  | createUnit (name : String)
  | mergeFood (sourceId targetId : String)
  | mergeUnit (sourceId targetId : String)
  | mergeTool (sourceId targetId : String)
  | listFoods
  | listUnits
  | listTools

/-- Mutation calls: POST/PATCH/DELETE requests that change remote state.
`parseIngredients` is an HTTP POST but to the stateless
`/parser/ingredients` endpoint, which mutates nothing. -/
def ApiCall.isMutation : ApiCall → Bool
  | .createFood _ => true
  | .patchRecipeIngredients _ _ => true
  | .patchRecipe _ => true
  | .createUnit _ => true
  | .mergeFood _ _ => true
  | .mergeUnit _ _ => true
  | .mergeTool _ _ => true
  | _ => false

/-! ## ingredient_parser.py — the run loop -/

/-- Environment of remote responses for a parser run.  `none` models a
raised `requests.RequestException` (for `createFood` both handled failure
shapes — duplicate-key conflict and other errors — return `None` in the
source, so one failure case suffices). -/
structure ParserEnv where
  recipes : List Json
  getRecipe : String → Option Json
  parseResult : String → List String → Option (List Json)
  createFood : String → Option Json
  patchOk : String → List Json → Bool

/-- `ensure_food_object`: keep an existing id, create a food by name when
the parser proposed one without an id, fall back to `None` (deferring the
line to review) on failure; returns the resulting food plus the calls
issued. -/
def ensureFoodObject (env : ParserEnv) (food : Json) : Option Json × List ApiCall :=
  match food with
  | .obj _ =>
      if truthy (jget food "id") then (slimEntity food, [])
      else
        let name := pyStrip (pyStrOr (jget food "name"))
        if name = "" then (none, [])
        else
          match env.createFood name with
          | none => (none, [.createFood name])
          | some created => (slimEntity created, [.createFood name])
  | _ => (none, [])

/-- The fields of a dict value (`dict(x)` on the guarded paths). -/
def objFieldsOf : Json → List (String × Json)
  | .obj f => f
  | _ => []

/-- The per-item body of `normalize_parsed_block`: copy the parsed
`ingredient` dict, resolve the food, slim the unit, drop parser-only
metadata. -/
def normalizeIngredient (env : ParserEnv) (item : Json) : Json × List ApiCall :=
  let ingJ := jget item "ingredient"
  let fields := objFieldsOf (if truthy ingJ then ingJ else .obj [])
  let foodR := (ensureFoodObject env (jget (Json.obj fields) "food")).1
  let calls := (ensureFoodObject env (jget (Json.obj fields) "food")).2
  let fields1 := objSet fields "food" (foodR.getD .null)
  let fields2 := objSet fields1 "unit"
    ((slimEntity (jget (Json.obj fields1) "unit")).getD .null)
  let fields3 := objDrop (objDrop fields2 "confidence") "display"
  (Json.obj fields3, calls)

/-- Count a suspicion reason (`dict.get(r, 0) + 1` insertion-ordered). -/
def bumpReason (m : List (String × Nat)) (k : String) : List (String × Nat) :=
  match m with
  | [] => [(k, 1)]
  | (k2, n) :: rest =>
      if k2 = k then (k2, n + 1) :: rest else (k2, n) :: bumpReason rest k

/-- Accumulator loop of `normalize_parsed_block`:
(normalized list, suspicion reasons, dropped-blank count, calls). -/
def normalizeParsedBlockGo (env : ParserEnv) :
    List Json → List Json × List (String × Nat) × Nat × List ApiCall →
      List Json × List (String × Nat) × Nat × List ApiCall
  | [], acc => acc
  | item :: rest, (norm, reasons, dropped, calls) =>
      let ing := (normalizeIngredient env item).1
      let newCalls := (normalizeIngredient env item).2
      if isBlankIngredient ing then
        normalizeParsedBlockGo env rest (norm, reasons, dropped + 1, calls ++ newCalls)
      else
        let reasons2 := match suspicionReason ing with
          | some r => bumpReason reasons r
          | none => reasons
        normalizeParsedBlockGo env rest (norm ++ [ing], reasons2, dropped, calls ++ newCalls)

/-- `normalize_parsed_block`. -/
def normalizeParsedBlock (env : ParserEnv) (block : List Json) :
    List Json × List (String × Nat) × Nat × List ApiCall :=
  normalizeParsedBlockGo env block ([], [], 0, [])

/-- `parse_with_fallback`: try each strategy in order until one returns a
non-empty block whose every line meets the confidence threshold.  Returns
(block, winning strategy, failed attempts, calls issued). -/
def parseWithFallback (env : ParserEnv) (lines : List String)
    (threshold : Rat) :
    List String → List Json × Option String × List (String × String) × List ApiCall
  | [] => ([], none, [], [])
  | strategy :: rest =>
      let call := ApiCall.parseIngredients strategy lines
      match env.parseResult strategy lines with
      | none =>
          let r := parseWithFallback env lines threshold rest
          (r.1, r.2.1, (strategy, "request error") :: r.2.2.1, call :: r.2.2.2)
      | some [] =>
          let r := parseWithFallback env lines threshold rest
          (r.1, r.2.1, (strategy, "empty parser response") :: r.2.2.1, call :: r.2.2.2)
      | some (x :: xs) =>
          if (x :: xs).all (fun it => threshold ≤ confidenceOf it) then
            (x :: xs, some strategy, [], [call])
          else
            let r := parseWithFallback env lines threshold rest
            (r.1, r.2.1, (strategy, "below confidence threshold") :: r.2.2.1,
              call :: r.2.2.2)

/-- The behaviour-relevant part of `ParserRunConfig`.  The omitted fields
(page size, delays, timeouts, retry counts, output paths) only affect I/O
pacing and artifact locations, not any modelled output. -/
structure ParserRunConfig where
  confidenceThreshold : Rat
  parserStrategies : List String
  afterSlug : Option String
  maxRecipes : Option Nat
  dryRun : Bool

/-- Mirror of the `ParserRunSummary` dataclass. -/
structure ParserRunSummary where
  totalCandidates : Nat := 0
  parsedSuccessfully : Nat := 0
  requiresReview : Nat := 0
  skippedEmpty : Nat := 0
  skippedAlreadyParsed : Nat := 0
  droppedBlankIngredients : Nat := 0

/-- Terminal outcome of one recipe in `run_parser`. -/
inductive StepTag where
  | alreadyParsed
  | skippedEmpty
  | reviewed (name reason : String)
  | parsed (name : String)

/-- One recipe's outcome: terminal tag, blank-ingredient drops, calls. -/
structure StepResult where
  tag : StepTag
  droppedBlank : Nat
  calls : List ApiCall

/-- The body of the `for slug in slugs` loop of `run_parser`. -/
def processSlug (env : ParserEnv) (cfg : ParserRunConfig) (slug : String) :
    StepResult :=
  match env.getRecipe slug with
  | none => ⟨.reviewed "<unknown>" "recipe_fetch_failed", 0, [.getRecipe slug]⟩
  | some recipe =>
      let recipeName :=
        if truthy (jget recipe "name") then pyStr (jget recipe "name") else slug
      match extractRawLines recipe with
      | .error _ => ⟨.alreadyParsed, 0, [.getRecipe slug]⟩
      | .ok rawLines0 =>
          if rawLines0.isEmpty then ⟨.skippedEmpty, 0, [.getRecipe slug]⟩
          else
            let rawLines := (sanitizeRawLines rawLines0).1
            if rawLines.isEmpty then ⟨.skippedEmpty, 0, [.getRecipe slug]⟩
            else
              let pwf :=
                parseWithFallback env rawLines cfg.confidenceThreshold
                  cfg.parserStrategies
              let baseCalls := ApiCall.getRecipe slug :: pwf.2.2.2
              match pwf.2.1 with
              | none => ⟨.reviewed recipeName "parser_failed_threshold", 0, baseCalls⟩
              | some _ =>
                  let npb := normalizeParsedBlock env pwf.1
                  let normalized := npb.1
                  let suspiciousReasons := npb.2.1
                  let droppedBlank := npb.2.2.1
                  let calls := baseCalls ++ npb.2.2.2
                  if normalized.isEmpty then
                    ⟨.reviewed recipeName "no_usable_ingredients_after_cleanup",
                      droppedBlank, calls⟩
                  else if ¬ suspiciousReasons.isEmpty then
                    ⟨.reviewed recipeName "suspicious_result", droppedBlank, calls⟩
                  else if cfg.dryRun then
                    ⟨.parsed recipeName, droppedBlank, calls⟩
                  else if env.patchOk slug normalized then
                    ⟨.parsed recipeName, droppedBlank,
                      calls ++ [.patchRecipeIngredients slug normalized]⟩
                  else
                    ⟨.reviewed recipeName "patch_failed", droppedBlank,
                      calls ++ [.patchRecipeIngredients slug normalized]⟩

/-- A whole parser run: summary, review records (slug, name, reason),
success log entries, and the chronological API-call trace. -/
structure RunResult where
  summary : ParserRunSummary
  reviews : List (String × String × String)
  successes : List String
  calls : List ApiCall

/-- Candidate slug selection of `run_parser`: recipes with a truthy slug
and no `hasParsedIngredients` flag, resumed after `after_slug` when that
slug is present, truncated to `max_recipes`. -/
def candidateSlugs (env : ParserEnv) (cfg : ParserRunConfig) : List String :=
  let slugs := env.recipes.filterMap fun r =>
    if truthy (jget r "slug") ∧ ¬ truthy (jget r "hasParsedIngredients") then
      some (pyStr (jget r "slug"))
    else none
  let slugs2 := match cfg.afterSlug with
    | some a => if a ∈ slugs then slugs.drop (slugs.findIdx (fun s => s = a) + 1) else slugs
    | none => slugs
  match cfg.maxRecipes with
  | some m => slugs2.take m
  | none => slugs2

/-- Fold one recipe's `StepResult` into the accumulated run state. -/
def foldStep (env : ParserEnv) (cfg : ParserRunConfig) (acc : RunResult)
    (slug : String) : RunResult :=
  let r := processSlug env cfg slug
  let acc2 : RunResult :=
    { acc with
      calls := acc.calls ++ r.calls
      summary := { acc.summary with
        droppedBlankIngredients := acc.summary.droppedBlankIngredients + r.droppedBlank } }
  match r.tag with
  | .alreadyParsed =>
      { acc2 with summary := { acc2.summary with
          skippedAlreadyParsed := acc2.summary.skippedAlreadyParsed + 1 } }
  | .skippedEmpty =>
      { acc2 with summary := { acc2.summary with
          skippedEmpty := acc2.summary.skippedEmpty + 1 } }
  | .reviewed name reason =>
      { acc2 with reviews := acc2.reviews ++ [(slug, name, reason)] }
  | .parsed name =>
      { acc2 with
        successes := acc2.successes ++ [name]
        summary := { acc2.summary with
          parsedSuccessfully := acc2.summary.parsedSuccessfully + 1 } }

/-- `run_parser`: validates the confidence threshold (`ValueError`
modelled as `none`), lists recipes, selects candidates, then runs the
per-recipe loop; `requires_review` ends up as the review count. -/
def runParser (env : ParserEnv) (cfg : ParserRunConfig) : Option RunResult :=
  if ¬ (0 < cfg.confidenceThreshold ∧ cfg.confidenceThreshold ≤ 1) then none
  else
    let slugs := candidateSlugs env cfg
    let init : RunResult :=
      { summary := { totalCandidates := slugs.length }
        reviews := []
        successes := []
        calls := [.getRecipes] }
    let final := slugs.foldl (foldStep env cfg) init
    some { final with summary :=
      { final.summary with requiresReview := final.reviews.length } }

/-- The API-call trace of a parser run (empty when the run is rejected at
configuration validation). -/
def runParserTrace (env : ParserEnv) (cfg : ParserRunConfig) : List ApiCall :=
  match runParser env cfg with
  | some r => r.calls
  | none => []

/-! ## foods/units/tools managers — the checkpointed merge-apply loop

`FoodsCleanupManager.run`, `UnitsCleanupManager.run` and the tools manager
share the same apply loop verbatim: skip sources already in the loaded
checkpoint, stop (`break`) when the action cap is reached in apply mode,
issue the merge, record the source id and rewrite the checkpoint file
immediately on success, count failures without halting.  The loop is
modelled once and instantiated per entity kind. -/

/-- A planned merge, reduced to the ids the loop decides on.  The report
metadata (names, group id, usage counts) is carried alongside in the
source but never branches the control flow. -/
structure MergeAction where
  sourceId : String
  targetId : String

/-- Which cleanup engine is running (selects the merge endpoint). -/
inductive CleanupKind where
  | foods
  | units
  | tools

/-- The merge call each engine issues. -/
def mergeCallOf : CleanupKind → String → String → ApiCall
  | .foods, s, t => .mergeFood s t
  | .units, s, t => .mergeUnit s t
  | .tools, s, t => .mergeTool s t

/-- Result of the apply loop.  `saves` records each checkpoint-file write
(its contents, as the set of merged source ids) in order; `newMerged` is
the chronological list of sources merged in this run. -/
structure CleanupOutcome where
  applied : Nat
  failed : Nat
  skippedCheckpoint : Nat
  attempted : List (MergeAction × String)
  newMerged : List String
  saves : List (List String)
  calls : List ApiCall

/-- The `for action in plan` loop shared by the three cleanup engines.
The membership test runs against the checkpoint loaded at start (the
source never re-reads it mid-run), and the cap comparison only happens for
actions not skipped by the checkpoint. -/
def applyMergeLoop (kind : CleanupKind) (checkpoint : List String) (cap : Nat)
    (executable : Bool) (mergeOk : MergeAction → Bool) :
    List MergeAction → CleanupOutcome → CleanupOutcome
  | [], s => s
  | a :: rest, s =>
      if a.sourceId ∈ checkpoint then
        applyMergeLoop kind checkpoint cap executable mergeOk rest
          { s with skippedCheckpoint := s.skippedCheckpoint + 1 }
      else if executable ∧ cap ≤ s.applied then s
      else if executable then
        let s2 := { s with
          calls := s.calls ++ [mergeCallOf kind a.sourceId a.targetId] }
        if mergeOk a then
          applyMergeLoop kind checkpoint cap executable mergeOk rest
            { s2 with
              applied := s2.applied + 1
              newMerged := s2.newMerged ++ [a.sourceId]
              saves := s2.saves ++ [checkpoint ++ s2.newMerged ++ [a.sourceId]]
              attempted := s2.attempted ++ [(a, "merged")] }
        else
          applyMergeLoop kind checkpoint cap executable mergeOk rest
            { s2 with
              failed := s2.failed + 1
              attempted := s2.attempted ++ [(a, "failed")] }
      else
        applyMergeLoop kind checkpoint cap executable mergeOk rest
          { s with attempted := s.attempted ++ [(a, "planned")] }

/-- One cleanup run over a computed plan.  `apply`/`dryRun` combine into
`executable = apply and not dry_run` exactly as in the source; the
constructor clamp `max(1, max_actions)` is applied here. -/
def runCleanup (kind : CleanupKind) (plan : List MergeAction)
    (checkpoint : List String) (maxActions : Nat) (apply dryRun : Bool)
    (mergeOk : MergeAction → Bool) : CleanupOutcome :=
  applyMergeLoop kind checkpoint (max 1 maxActions) (apply && !dryRun) mergeOk
    plan ⟨0, 0, 0, [], [], [], []⟩

/-- The checkpoint-file contents after a run: the loaded set plus every
source merged in this run (the file is rewritten on each success; if no
merge succeeded the file keeps its previous contents, which has the same
set of ids). -/
def finalCheckpoint (checkpoint : List String) (outcome : CleanupOutcome) :
    List String :=
  checkpoint ++ outcome.newMerged

/-! ## api_client.py — `_build_retry_policy` -/

/-- The fields of `urllib3.util.retry.Retry` that
`MealieApiClient._build_retry_policy` sets. -/
structure RetryPolicy where
  total : Nat
  connect : Nat
  read : Nat
  backoffFactor : Rat
  statusForcelist : List Nat
  allowedMethods : List String
  raiseOnStatus : Bool

/-- `_build_retry_policy` (the branch where urllib3's `Retry` class is
importable, which is the shipped configuration): `retries ≤ 0` disables
retrying (`.inl 0`, requests' integer handling), otherwise a `Retry`
object is built. -/
def buildRetryPolicy (retries : Int) (backoffSeconds : Rat) : Nat ⊕ RetryPolicy :=
  let retryCount := max retries 0
  if retryCount = 0 then .inl 0
  else
    .inr
      { total := retryCount.toNat
        connect := retryCount.toNat
        read := retryCount.toNat
        backoffFactor := max backoffSeconds 0
        statusForcelist := [429, 500, 502, 503, 504]
        allowedMethods := ["GET", "POST", "PUT", "PATCH", "DELETE"]
        raiseOnStatus := false }

/-- The idempotent HTTP methods (RFC 7231 §4.2.2) — the spec-side notion
the retry claim compares the policy against. -/
def idempotentMethods : List String :=
  ["GET", "HEAD", "PUT", "DELETE", "OPTIONS", "TRACE"]

/-! ## categorizer_core.py — cache pre-flight skip and dry-run apply -/

/-- The cache pre-flight stage at the top of
`MealieCategorizer.process_batch` (lines 660–677): in a non-replace,
non-dry-run pass, recipes whose slug is a cache key and whose
`recipeCategory` and `tags` are both non-empty are removed from the batch
and counted as `cached_skipped`; the returned batch is the one every
subsequent LLM prompt of the batch draws from. -/
def cacheSkipCond (cacheKeys : List String) (r : Json) : Bool :=
  (match jget r "slug" with
    | .str s => cacheKeys.contains s
    | _ => false) &&
    truthy (jget r "recipeCategory") && truthy (jget r "tags")

/-- The batch actually forwarded to the LLM prompt plus the
`cached_skipped` increment (see `cacheSkipCond` for the per-recipe
condition). -/
def processBatchTargets (replaceExisting dryRun : Bool)
    (cacheKeys : List String) (batch : List Json) : List Json × Nat :=
  if ¬ replaceExisting ∧ ¬ dryRun then
    (batch.filter (fun r => ¬ cacheSkipCond cacheKeys r),
      (batch.filter (cacheSkipCond cacheKeys)).length)
  else (batch, 0)

/-- The inner `append_matches` of `update_recipe_metadata`: look up each
returned name case-insensitively, skip unknown names and slugs already
present, append the catalog entry otherwise.  Accumulates
(changed, added names, existing slug set, target list). -/
def appendMatches (lookup : String → Option Json) (names : List String)
    (existingSet : List Json) (targetList : List Json) :
    Bool × List Json × List Json × List Json :=
  names.foldl
    (fun acc name =>
      let (_, added, eSet, tList) := acc
      let key := pyLower (pyStrip name)
      match lookup key with
      | none => acc
      | some mtch =>
          let slug := jget mtch "slug"
          if eSet.any (fun s => jsonBEq s slug) then acc
          else
            (true, added ++ [jget mtch "name"], eSet ++ [slug],
              tList ++
                [Json.obj [("id", jget mtch "id"), ("name", jget mtch "name"),
                           ("slug", slug), ("groupId", jget mtch "groupId")]])
    )
    (false, [], existingSet, targetList)

/-- Outcome of `update_recipe_metadata`: its boolean return value and the
calls issued (at most the one PATCH). -/
structure UpdateOutcome where
  changed : Bool
  calls : List ApiCall

/-- `MealieCategorizer.update_recipe_metadata`: merge the returned names
into the existing categories/tags, and only when something genuinely new
appeared either log the plan (dry-run) or PATCH the recipe. -/
def updateRecipeMetadata (dryRun replaceExisting : Bool) (recipe : Json)
    (categoryNames tagNames : List String)
    (categoriesByName tagsByName : String → Option Json)
    (patchStatus : String → Nat) : UpdateOutcome :=
  let recipeSlug := pyStr (jget recipe "slug")
  let asList := fun (j : Json) => match j with
    | .arr l => l
    | _ => ([] : List Json)
  let existingCategories :=
    if replaceExisting then [] else asList (jget recipe "recipeCategory")
  let existingTags := if replaceExisting then [] else asList (jget recipe "tags")
  let catSlugs := existingCategories.map (fun c => jget c "slug")
  let tagSlugs := existingTags.map (fun t => jget t "slug")
  let catsChanged :=
    (appendMatches categoriesByName categoryNames catSlugs existingCategories).1
  let tagsChanged :=
    (appendMatches tagsByName tagNames tagSlugs existingTags).1
  if ¬ catsChanged ∧ ¬ tagsChanged then ⟨false, []⟩
  else if dryRun then ⟨true, []⟩
  else if patchStatus recipeSlug = 200 then ⟨true, [.patchRecipe recipeSlug]⟩
  else ⟨false, [.patchRecipe recipeSlug]⟩

/-! ## categorizer_core.py — `parse_json_response`

The defensive cleanup is a pipeline of `re.sub` calls with fixed patterns;
each pass is implemented below on `List Char` following the semantics of
its exact pattern (left-to-right, non-overlapping matches, greedy
quantifiers).  `json.loads` is modelled by `jsonLoadsL`, a recursive
descent parser of RFC 8259 JSON (strings with the standard escapes,
numbers as exact rationals, literals, arrays, objects). -/

/-- Python `\w` (the ASCII portion, which covers the payloads at hand). -/
def isWordChar (c : Char) : Bool := c.isAlphanum || c = '_'

/-- The backtick character. -/
def backtickChar : Char := Char.ofNat 96

/-- The left curly brace. -/
def lCurly : Char := '\x7b'

/-- The right curly brace. -/
def rCurly : Char := '\x7d'

/-- The ASCII apostrophe / single quote. -/
def singleQuoteChar : Char := Char.ofNat 39

/-- `re.sub(r"^```(?:json)?\s*", "", s, flags=IGNORECASE)`: anchored at the
start, so at most the one leading fence (with optional `json` tag and
trailing whitespace) is removed. -/
def stripFenceOpenL (l : List Char) : List Char :=
  match l with
  | b1 :: b2 :: b3 :: rest =>
      if b1 = backtickChar ∧ b2 = backtickChar ∧ b3 = backtickChar then
        let rest2 := match rest with
          | c1 :: c2 :: c3 :: c4 :: tail =>
              if c1.toLower = 'j' ∧ c2.toLower = 's' ∧ c3.toLower = 'o' ∧
                  c4.toLower = 'n' then tail
              else rest
          | _ => rest
        rest2.dropWhile isPySpace
      else l
  | _ => l

/-- `re.sub(r"\s*```$", "", s)`: a trailing fence plus the whitespace
before it is removed.  (Python's `$` would also match just before one
final newline, but the input here is always `strip`ped first.) -/
def stripFenceCloseL (l : List Char) : List Char :=
  match l.reverse with
  | b1 :: b2 :: b3 :: rest =>
      if b1 = backtickChar ∧ b2 = backtickChar ∧ b3 = backtickChar then
        (rest.dropWhile isPySpace).reverse
      else l
  | _ => l

/-- The chained `.replace("“", '"').replace("”", '"').replace("'", '"')`:
a character map, since the three sources are distinct single characters
and none maps onto another source. -/
def qnChar (c : Char) : Char :=
  if c = '“' ∨ c = '”' ∨ c = singleQuoteChar then '"' else c

/-- Quote normalization pass. -/
def quoteNormL (l : List Char) : List Char := l.map qnChar

/-- `re.sub(r",(\s*[\]}])", r"\1", s)`: drop a comma directly preceding
(up to whitespace) a closing bracket; scanning resumes after the matched
bracket. -/
def rtcL : List Char → List Char
  | [] => []
  | c :: rest =>
      if c = ',' then
        match h : rest.dropWhile isPySpace with
        | b :: tail =>
            if b = ']' ∨ b = rCurly then
              rest.takeWhile isPySpace ++ b :: rtcL tail
            else ',' :: rtcL rest
        | [] => ',' :: rtcL rest
      else c :: rtcL rest
termination_by l => l.length
decreasing_by
  · have h2 : (rest.dropWhile isPySpace).length ≤ rest.length :=
      lengthDropWhileLe _ _
    rw [h] at h2
    simp only [List.length_cons] at h2 ⊢
    omega
  · simp
  · simp
  · simp

/-- `re.sub(r"(\w+):", r'"\1":', s)`: quote a maximal word run directly
followed by a colon; runs not followed by a colon are left untouched
(backtracking inside a run cannot succeed because a run contains no
colon). -/
def qkL : List Char → List Char
  | [] => []
  | c :: rest =>
      if isWordChar c then
        let w := c :: rest.takeWhile isWordChar
        match h : rest.dropWhile isWordChar with
        | ':' :: tail => '"' :: w ++ '"' :: ':' :: qkL tail
        | other => w ++ qkL other
      else c :: qkL rest
termination_by l => l.length
decreasing_by
  · have h2 := lengthDropWhileLe isWordChar rest
    rw [h] at h2
    simp only [List.length_cons] at h2 ⊢
    omega
  · have h2 := lengthDropWhileLe isWordChar rest
    rw [h] at h2
    simp only [List.length_cons]
    omega
  · simp

/-- `re.search(r"\[.*\]", s, re.DOTALL)`: the leftmost-longest match runs
from the first `[` to the last `]` after it (if any). -/
def bracketSliceL (l : List Char) : Option (List Char) :=
  let fromFirst := l.dropWhile (fun c => ¬ c = '[')
  match fromFirst with
  | [] => none
  | _ :: _ =>
      match (fromFirst.reverse.dropWhile (fun c => ¬ c = ']')).reverse with
      | [] => none
      | seg => some seg

/-- JSON whitespace (`json.loads`): space, tab, LF, CR. -/
def isJsonWs (c : Char) : Bool := c = ' ' ∨ c = '\t' ∨ c = '\n' ∨ c = '\x0d'

/-- Skip JSON whitespace. -/
def skipJsonWs (l : List Char) : List Char := l.dropWhile isJsonWs

/-- Value of a decimal digit list. -/
def digitsValL (ds : List Char) : Nat :=
  ds.foldl (fun acc c => acc * 10 + (c.toNat - 48)) 0

/-- Value of a hex digit. -/
def hexVal (c : Char) : Nat :=
  if c.isDigit then c.toNat - 48
  else if 'a' ≤ c ∧ c ≤ 'f' then c.toNat - 87
  else if 'A' ≤ c ∧ c ≤ 'F' then c.toNat - 55
  else 0

/-- Hex digit test. -/
def isHexDigitChar (c : Char) : Bool :=
  c.isDigit ∨ ('a' ≤ c ∧ c ≤ 'f') ∨ ('A' ≤ c ∧ c ≤ 'F')

/-- JSON string body parser (after the opening quote): standard escapes
and `\uXXXX` for BMP code points; raw control characters are rejected
(strict mode). -/
def jlStringChars : List Char → Option (List Char × List Char)
  | [] => none
  | c :: rest =>
      if c = '"' then some ([], rest)
      else if c = '\\' then
        match rest with
        | [] => none
        | e :: rest2 =>
            let esc : Option Char :=
              if e = '"' then some '"'
              else if e = '\\' then some '\\'
              else if e = '/' then some '/'
              else if e = 'b' then some '\x08'
              else if e = 'f' then some '\x0c'
              else if e = 'n' then some '\n'
              else if e = 'r' then some '\x0d'
              else if e = 't' then some '\t'
              else none
            match esc with
            | some ch => (jlStringChars rest2).map (fun p => (ch :: p.1, p.2))
            | none =>
                if e = 'u' then
                  match rest2 with
                  | h1 :: h2 :: h3 :: h4 :: rest3 =>
                      if isHexDigitChar h1 ∧ isHexDigitChar h2 ∧
                          isHexDigitChar h3 ∧ isHexDigitChar h4 then
                        let n := ((hexVal h1 * 16 + hexVal h2) * 16 + hexVal h3) * 16 +
                          hexVal h4
                        if n < 0xd800 ∨ 0xdfff < n then
                          (jlStringChars rest3).map (fun p => (Char.ofNat n :: p.1, p.2))
                        else none
                      else none
                  | _ => none
                else none
      else if c.toNat < 32 then none
      else (jlStringChars rest).map (fun p => (c :: p.1, p.2))
termination_by l => l.length
decreasing_by all_goals simp_arith

/-- JSON number parser: `-?int(.frac)?([eE][+-]?exp)?` to an exact
rational; leading zeros are rejected as in RFC 8259. -/
def jlNumber (l : List Char) : Option (Rat × List Char) :=
  let (neg, l1) : Bool × List Char :=
    match l with
    | '-' :: rest => (true, rest)
    | _ => (false, l)
  let intDigits := l1.takeWhile Char.isDigit
  let l2 := l1.dropWhile Char.isDigit
  if intDigits.isEmpty then none
  else if 1 < intDigits.length ∧ intDigits.head? = some '0' then none
  else
    let step2 : Option (Rat × List Char) :=
      match l2 with
      | '.' :: rest =>
          let fd := rest.takeWhile Char.isDigit
          if fd.isEmpty then none
          else
            some ((digitsValL intDigits : Rat) +
                (digitsValL fd : Rat) / ((10 : Rat) ^ fd.length),
              rest.dropWhile Char.isDigit)
      | _ => some ((digitsValL intDigits : Rat), l2)
    match step2 with
    | none => none
    | some (mantissa, l3) =>
        let step3 : Option (Rat × List Char) :=
          match l3 with
          | e :: rest =>
              if e = 'e' ∨ e = 'E' then
                let (expNeg, rest2) : Bool × List Char :=
                  match rest with
                  | '-' :: r => (true, r)
                  | '+' :: r => (false, r)
                  | _ => (false, rest)
                let ed := rest2.takeWhile Char.isDigit
                if ed.isEmpty then none
                else
                  let ex : Rat :=
                    if expNeg then 1 / ((10 : Rat) ^ digitsValL ed)
                    else ((10 : Rat) ^ digitsValL ed)
                  some (mantissa * ex, rest2.dropWhile Char.isDigit)
              else some (mantissa, l3)
          | [] => some (mantissa, l3)
        match step3 with
        | none => none
        | some (q, r) => some ((if neg then -q else q), r)

mutual

/-- JSON value parser (fuel-indexed recursive descent). -/
def jlValue : Nat → List Char → Option (Json × List Char)
  | 0, _ => none
  | Nat.succ fuel, l =>
      match l with
      | [] => none
      | c :: rest =>
          if c = '"' then
            (jlStringChars rest).map (fun p => (Json.str (String.mk p.1), p.2))
          else if c = '[' then
            match skipJsonWs rest with
            | ']' :: r => some (.arr [], r)
            | l2 => (jlArrayItems fuel l2).map (fun p => (Json.arr p.1, p.2))
          else if c = lCurly then
            match skipJsonWs rest with
            | d :: r =>
                if d = rCurly then some (.obj [], r)
                else (jlObjMembers fuel (d :: r)).map (fun p => (Json.obj p.1, p.2))
            | [] => none
          else if c = 't' then
            match rest with
            | 'r' :: 'u' :: 'e' :: r => some (.bool true, r)
            | _ => none
          else if c = 'f' then
            match rest with
            | 'a' :: 'l' :: 's' :: 'e' :: r => some (.bool false, r)
            | _ => none
          else if c = 'n' then
            match rest with
            | 'u' :: 'l' :: 'l' :: r => some (.null, r)
            | _ => none
          else if c = '-' ∨ c.isDigit then
            (jlNumber l).map (fun p => (Json.num p.1, p.2))
          else none

/-- Non-empty array tail: value, then `, value`* until `]`. -/
def jlArrayItems : Nat → List Char → Option (List Json × List Char)
  | 0, _ => none
  | Nat.succ fuel, l =>
      match jlValue fuel l with
      | none => none
      | some (v, r) =>
          match skipJsonWs r with
          | ',' :: r2 =>
              (jlArrayItems fuel (skipJsonWs r2)).map (fun p => (v :: p.1, p.2))
          | ']' :: r2 => some ([v], r2)
          | _ => none

/-- Non-empty object tail: `"key": value`, then `, "key": value`* until
the closing brace. -/
def jlObjMembers : Nat → List Char → Option (List (String × Json) × List Char)
  | 0, _ => none
  | Nat.succ fuel, l =>
      match l with
      | c :: rest =>
          if c = '"' then
            match jlStringChars rest with
            | none => none
            | some (key, r) =>
                match skipJsonWs r with
                | ':' :: r2 =>
                    match jlValue fuel (skipJsonWs r2) with
                    | none => none
                    | some (v, r3) =>
                        match skipJsonWs r3 with
                        | ',' :: r4 =>
                            (jlObjMembers fuel (skipJsonWs r4)).map
                              (fun p => ((String.mk key, v) :: p.1, p.2))
                        | d :: r4 =>
                            if d = rCurly then some ([(String.mk key, v)], r4)
                            else none
                        | [] => none
                | _ => none
          else none
      | [] => none

end

/-- `json.loads`: parse one value surrounded by whitespace, requiring the
whole input to be consumed.  The fuel bound is generous: every two call
levels consume at least one character. -/
def jsonLoadsL (l : List Char) : Option Json :=
  match jlValue (2 * l.length + 2) (skipJsonWs l) with
  | some (v, r) => if (skipJsonWs r).isEmpty then some v else none
  | none => none

/-- The cleanup pipeline of `parse_json_response`, in source order:
strip, fence removal, quote normalization, trailing-comma removal, bare
key quoting. -/
def pjrCleanupL (l : List Char) : List Char :=
  qkL (rtcL (quoteNormL (stripFenceCloseL (stripFenceOpenL (pyStripL l)))))

/-- `parse_json_response`: try `json.loads` on the cleaned text, else
extract the first top-level bracketed span and try again, else `None`.
(A parsed JSON `null` is `some .null` here; Python's `None`-for-failure
conflation happens at the call sites, not in this function.) -/
def parse_json_response (s : String) : Option Json :=
  let cleaned := pjrCleanupL s.data
  match jsonLoadsL cleaned with
  | some v => some v
  | none =>
      match bracketSliceL cleaned with
      | some seg => jsonLoadsL seg
      | none => none

/-! ## Call classifiers used by trace statements -/

/-- Is this a `PATCH /recipes/{slug}` write of a recipe's ingredients? -/
def callIsPatchIngs : ApiCall → Bool
  | .patchRecipeIngredients _ _ => true
  | _ => false

/-- Is this a `POST /foods` create? -/
def callIsCreateFood : ApiCall → Bool
  | .createFood _ => true
  | _ => false

/-- Is this a `POST /units` create? -/
def callIsCreateUnit : ApiCall → Bool
  | .createUnit _ => true
  | _ => false

/-- Is this a `POST /parser/ingredients` parse request? -/
def callIsParse : ApiCall → Bool
  | .parseIngredients _ _ => true
  | _ => false

/-- Source id of a merge call, when the call is a merge. -/
def mergeSourceOf : ApiCall → Option String
  | .mergeFood s _ => some s
  | .mergeUnit s _ => some s
  | .mergeTool s _ => some s
  | _ => none

/-! ## Rendered classifier responses (for the JSON-recovery claim)

The classifier's batch responses are arrays of flat objects
`(slug, categories, tags)` with word-character keys.  The family below
renders such arrays in the clean JSON form and in each degraded form the
spec names (code fences, trailing commas, unquoted keys, single or smart
quotes), over string content restricted to alphanumerics and spaces —
content rich enough for the schema yet outside the blast radius of the
cleanup regexes. -/

/-- One entry of a classifier response. -/
structure CatEntry where
  slug : String
  categories : List String
  tags : List String

/-- Characters that the cleanup pipeline is guaranteed to leave alone
inside string literals: alphanumerics and spaces. -/
def safeChar (c : Char) : Bool := c.isAlphanum ∨ c = ' '

/-- A string of safe characters. -/
def safeStrB (s : String) : Bool := s.data.all safeChar

/-- Entry whose slug, categories and tags are all safe strings. -/
def safeEntry (e : CatEntry) : Bool :=
  safeStrB e.slug && e.categories.all safeStrB && e.tags.all safeStrB

/-- All entries safe. -/
def safeEntries (es : List CatEntry) : Bool := es.all safeEntry

/-- A rendering style: quote delimiters, whether keys are quoted, whether
trailing commas are inserted. -/
structure RenderStyle where
  qo : Char
  qc : Char
  keyQuotes : Bool
  trailingCommas : Bool

/-- Clean JSON. -/
def cleanStyle : RenderStyle := ⟨'"', '"', true, false⟩

/-- Single quotes throughout. -/
def sqStyle : RenderStyle := ⟨singleQuoteChar, singleQuoteChar, true, false⟩

/-- Smart (curly) quotes throughout. -/
def smartStyle : RenderStyle := ⟨'“', '”', true, false⟩

/-- Unquoted object keys. -/
def bareKeyStyle : RenderStyle := ⟨'"', '"', false, false⟩

/-- Trailing commas before every closing bracket of a non-empty
array/object. -/
def trailingStyle : RenderStyle := ⟨'"', '"', true, true⟩

/-- A quoted string literal. -/
def renderStr (st : RenderStyle) (s : String) : List Char :=
  st.qo :: s.data ++ [st.qc]

/-- An object key. -/
def renderKey (st : RenderStyle) (k : String) : List Char :=
  if st.keyQuotes then st.qo :: k.data ++ [st.qc] else k.data

/-- Comma-separated string elements. -/
def renderItems (st : RenderStyle) : List String → List Char
  | [] => []
  | [s] => renderStr st s
  | s :: rest => renderStr st s ++ ',' :: ' ' :: renderItems st rest

/-- A string array. -/
def renderList (st : RenderStyle) (xs : List String) : List Char :=
  '[' :: renderItems st xs ++
    (if st.trailingCommas ∧ ¬ xs.isEmpty then [','] else []) ++ [']']

/-- One response object. -/
def renderEntry (st : RenderStyle) (e : CatEntry) : List Char :=
  lCurly :: renderKey st "slug" ++ ':' :: ' ' :: renderStr st e.slug ++
    ',' :: ' ' :: renderKey st "categories" ++ ':' :: ' ' ::
    renderList st e.categories ++
    ',' :: ' ' :: renderKey st "tags" ++ ':' :: ' ' :: renderList st e.tags ++
    (if st.trailingCommas then [','] else []) ++ [rCurly]

/-- Comma-separated response objects. -/
def renderEntriesItems (st : RenderStyle) : List CatEntry → List Char
  | [] => []
  | [e] => renderEntry st e
  | e :: rest => renderEntry st e ++ ',' :: ' ' :: renderEntriesItems st rest

/-- A whole rendered response array. -/
def renderResponse (st : RenderStyle) (es : List CatEntry) : List Char :=
  '[' :: renderEntriesItems st es ++
    (if st.trailingCommas ∧ ¬ es.isEmpty then [','] else []) ++ [']']

/-- Code-fence wrapping of a response text. -/
def fenceWrap (l : List Char) : List Char :=
  backtickChar :: backtickChar :: backtickChar :: 'j' :: 's' :: 'o' :: 'n' ::
    '\n' :: l ++ ['\n', backtickChar, backtickChar, backtickChar]

/-- The structured value a response entry denotes. -/
def entryJson (e : CatEntry) : Json :=
  .obj [("slug", .str e.slug), ("categories", .arr (e.categories.map .str)),
        ("tags", .arr (e.tags.map .str))]

/-- The structured value a response array denotes. -/
def responseJson (es : List CatEntry) : Json := .arr (es.map entryJson)

/-! ## Concrete instances for counterexamples and witnesses -/

/-- A dry-run parser configuration. -/
def cfgDry : ParserRunConfig :=
  ⟨4/5, ["nlp"], none, none, true⟩

/-- The same configuration with dry-run off. -/
def cfgWet : ParserRunConfig :=
  ⟨4/5, ["nlp"], none, none, false⟩

/-- A recipe listing stub. -/
def recListed : Json := .obj [("slug", .str "r1"), ("name", .str "Recipe One")]

/-- The full fetched recipe: one raw ingredient line. -/
def recFullC1 : Json :=
  .obj [("slug", .str "r1"), ("name", .str "Recipe One"),
        ("recipeIngredient", .arr [.str "1 cup basil"])]

/-- A parsed line whose food was proposed by name, without an id. -/
def parsedItemNewFood : Json :=
  .obj [("ingredient",
          .obj [("note", .str "chopped"), ("quantity", .num 1),
                ("food", .obj [("name", .str "basil")]), ("unit", .null)]),
        ("confidence", .obj [("average", .num 1)])]

/-- Environment in which the single recipe parses to a line that proposes
a new food by name. -/
def envNewFood : ParserEnv :=
  { recipes := [recListed]
    getRecipe := fun s => if s = "r1" then some recFullC1 else none
    parseResult := fun _ _ => some [parsedItemNewFood]
    createFood := fun n => some (.obj [("id", .str "f9"), ("name", .str n)])
    patchOk := fun _ _ => true }

/-- A structured ingredient list in which some entries carry a food and
some do not (the already-parsed counterexample). -/
def recMixedFoods : Json :=
  .obj [("recipeIngredient",
    .arr [.obj [("food", .obj [("id", .str "f1")]), ("note", .str "beef")],
          .obj [("food", Json.null), ("note", .str "salt")]])]

/-- The all-null-food second entry of `recMixedFoods`. -/
def mixedEntryNullFood : Json := .obj [("food", Json.null), ("note", .str "salt")]

/-- Zero quantity, a real unit, and a serving-phrase note (the suspicious
gating counterexample). -/
def ingServing : Json :=
  .obj [("note", .str "for serving"), ("quantity", .num 0),
        ("unit", .obj [("id", .str "u1"), ("name", .str "cup")]),
        ("food", Json.null)]

/-- A parsed line whose unit was proposed by name, without an id. -/
def parsedItemNamedUnit : Json :=
  .obj [("ingredient",
          .obj [("note", .str "fresh"), ("quantity", .num 2),
                ("food", .obj [("id", .str "f1"), ("name", .str "basil")]),
                ("unit", .obj [("name", .str "cups")])]),
        ("confidence", .obj [("average", .num 1)])]

/-- A cached, fully-organized recipe (the cache-skip counterexample). -/
def recCached : Json :=
  .obj [("slug", .str "abc"),
        ("recipeCategory", .arr [.obj [("name", .str "Dinner")]]),
        ("tags", .arr [.obj [("name", .str "Quick")]])]

/-- A one-action merge plan. -/
def actS1 : MergeAction := ⟨"s1", "t1"⟩

/-- A second merge action. -/
def actS2 : MergeAction := ⟨"s2", "t1"⟩

/-- A parsed line with zero quantity and a real unit (suspicious). -/
def parsedItemSuspicious : Json :=
  .obj [("ingredient",
          .obj [("note", .str ""), ("quantity", .num 0),
                ("food", .obj [("id", .str "f1"), ("name", .str "salt")]),
                ("unit", .obj [("id", .str "u1"), ("name", .str "cup")])]),
        ("confidence", .obj [("average", .num 1)])]

/-- Environment whose single recipe parses to a suspicious line. -/
def envSusp : ParserEnv :=
  { recipes := [recListed]
    getRecipe := fun s => if s = "r1" then some recFullC1 else none
    parseResult := fun _ _ => some [parsedItemSuspicious]
    createFood := fun n => some (.obj [("id", .str "f9"), ("name", .str n)])
    patchOk := fun _ _ => true }

/-- Environment serving the mixed-food recipe under slug `m1`. -/
def envMixed : ParserEnv :=
  { recipes := [.obj [("slug", .str "m1")]]
    getRecipe := fun s => if s = "m1" then some recMixedFoods else none
    parseResult := fun _ _ => none
    createFood := fun _ => none
    patchOk := fun _ _ => true }

/-- A concrete classifier response entry list with safe string content. -/
def catsW : List CatEntry :=
  [CatEntry.mk "pasta bake" ["Main Dishes"] ["pasta", "dinner"]]

/-- The structured array `json.loads` yields for the clean rendering of
`catsW`. -/
def catsWJson : Json :=
  .arr [.obj [("slug", .str "pasta bake"),
              ("categories", .arr [.str "Main Dishes"]),
              ("tags", .arr [.str "pasta", .str "dinner"])]]

/-! ## Lemmas: object field operations -/

lemma findField_objSet_self : ∀ (f : List (String × Json)) (k : String) (v : Json),
    findField (objSet f k v) k = some v := by
  intro f k v
  induction f with
  | nil => simp [objSet, findField]
  | cons kv rest ih =>
      obtain ⟨k2, w⟩ := kv
      by_cases h : k2 = k
      · simp [objSet, findField, h]
      · simp [objSet, findField, h, ih]

lemma findField_objSet_ne : ∀ (f : List (String × Json)) (k : String) (v : Json)
    (k2 : String), k2 ≠ k → findField (objSet f k v) k2 = findField f k2 := by
  intro f k v k2 hne
  induction f with
  | nil => simp [objSet, findField, Ne.symm hne]
  | cons kv rest ih =>
      obtain ⟨k3, w⟩ := kv
      by_cases h : k3 = k
      · subst h
        simp [objSet, findField, Ne.symm hne]
      · simp only [objSet, if_neg h, findField]
        by_cases h2 : k3 = k2 <;> simp [h2, ih]

lemma findField_objDrop_ne : ∀ (f : List (String × Json)) (k k2 : String),
    k2 ≠ k → findField (objDrop f k) k2 = findField f k2 := by
  intro f k k2 hne
  induction f with
  | nil => simp [objDrop]
  | cons kv rest ih =>
      obtain ⟨k3, w⟩ := kv
      by_cases h : k3 = k
      · subst h
        simp [objDrop, findField, Ne.symm hne]
      · simp only [objDrop, if_neg h, findField]
        by_cases h2 : k3 = k2 <;> simp [h2, ih]

/-! ## Lemmas: call traces of the parsing pipeline -/

lemma efo_calls (env : ParserEnv) (food : Json) :
    ∀ c ∈ (ensureFoodObject env food).2, callIsCreateFood c = true := by
  intro c hc
  cases food <;> simp only [ensureFoodObject] at hc <;> try simp at hc
  case obj f =>
    split at hc
    · simp at hc
    · split at hc
      · simp at hc
      · split at hc <;>
          · simp at hc
            subst hc
            rfl

lemma normIng_calls (env : ParserEnv) (item : Json) :
    ∀ c ∈ (normalizeIngredient env item).2, callIsCreateFood c = true := by
  intro c hc
  simp only [normalizeIngredient] at hc
  exact efo_calls env _ c hc

lemma npbGo_norm (env : ParserEnv) : ∀ (block : List Json)
    (norm : List Json) (reasons : List (String × Nat)) (dropped : Nat)
    (calls : List ApiCall),
    (normalizeParsedBlockGo env block (norm, reasons, dropped, calls)).1 =
      norm ++ (block.map (fun it => (normalizeIngredient env it).1)).filter
        (fun ing => !(isBlankIngredient ing)) := by
  intro block
  induction block with
  | nil => intro norm reasons dropped calls; simp [normalizeParsedBlockGo]
  | cons item rest ih =>
      intro norm reasons dropped calls
      simp only [normalizeParsedBlockGo]
      by_cases hb : isBlankIngredient (normalizeIngredient env item).1
      · simp [hb, ih]
      · simp [hb, ih]

lemma npbGo_dropped (env : ParserEnv) : ∀ (block : List Json)
    (norm : List Json) (reasons : List (String × Nat)) (dropped : Nat)
    (calls : List ApiCall),
    (normalizeParsedBlockGo env block (norm, reasons, dropped, calls)).2.2.1 =
      dropped + (block.map (fun it => (normalizeIngredient env it).1)).countP
        isBlankIngredient := by
  intro block
  induction block with
  | nil => intro norm reasons dropped calls; simp [normalizeParsedBlockGo]
  | cons item rest ih =>
      intro norm reasons dropped calls
      simp only [normalizeParsedBlockGo]
      by_cases hb : isBlankIngredient (normalizeIngredient env item).1
      · simp [hb, ih, List.countP_cons]
        omega
      · simp [hb, ih, List.countP_cons]

lemma npbGo_calls (env : ParserEnv) : ∀ (block : List Json)
    (acc : List Json × List (String × Nat) × Nat × List ApiCall)
    (c : ApiCall), c ∈ (normalizeParsedBlockGo env block acc).2.2.2 →
      c ∈ acc.2.2.2 ∨ callIsCreateFood c = true := by
  intro block
  induction block with
  | nil => intro acc c hc; simp [normalizeParsedBlockGo] at hc; exact Or.inl hc
  | cons item rest ih =>
      intro acc c hc
      obtain ⟨norm, reasons, dropped, calls⟩ := acc
      simp only [normalizeParsedBlockGo] at hc
      by_cases hb : isBlankIngredient (normalizeIngredient env item).1
      · simp only [hb, if_true] at hc
        rcases ih _ _ hc with h | h
        · simp only [List.mem_append] at h
          rcases h with h | h
          · exact Or.inl h
          · exact Or.inr (normIng_calls env item c h)
        · exact Or.inr h
      · simp only [hb, if_false] at hc
        rcases ih _ _ hc with h | h
        · simp only [List.mem_append] at h
          rcases h with h | h
          · exact Or.inl h
          · exact Or.inr (normIng_calls env item c h)
        · exact Or.inr h

lemma npb_norm_nonblank (env : ParserEnv) (block : List Json) :
    ∀ ing ∈ (normalizeParsedBlock env block).1, isBlankIngredient ing = false := by
  intro ing hmem
  unfold normalizeParsedBlock at hmem
  rw [npbGo_norm] at hmem
  simp only [List.nil_append, List.mem_filter] at hmem
  simpa using hmem.2

lemma bumpReason_ne_nil : ∀ (m : List (String × Nat)) (k : String),
    bumpReason m k ≠ [] := by
  intro m k
  cases m with
  | nil => simp [bumpReason]
  | cons kv rest =>
      obtain ⟨k2, n⟩ := kv
      by_cases h : k2 = k <;> simp [bumpReason, h]

lemma npbGo_reasons (env : ParserEnv) : ∀ (block : List Json)
    (acc : List Json × List (String × Nat) × Nat × List ApiCall),
    ((normalizeParsedBlockGo env block acc).2.1 = [] ↔
      acc.2.1 = [] ∧ ∀ item ∈ block,
        isBlankIngredient (normalizeIngredient env item).1 = true ∨
          suspicionReason (normalizeIngredient env item).1 = none) := by
  intro block
  induction block with
  | nil => intro acc; simp [normalizeParsedBlockGo]
  | cons item rest ih =>
      intro acc
      obtain ⟨norm, reasons, dropped, calls⟩ := acc
      simp only [normalizeParsedBlockGo]
      by_cases hb : isBlankIngredient (normalizeIngredient env item).1
      · rw [if_pos hb, ih]
        simp [hb]
      · rw [if_neg hb]
        rcases hs : suspicionReason (normalizeIngredient env item).1 with _ | r
        · simp only [hs]
          rw [ih]
          simp [hb, hs]
        · simp only [hs]
          rw [ih]
          simp [hb, hs, bumpReason_ne_nil]

lemma npb_calls (env : ParserEnv) (block : List Json) :
    ∀ c ∈ (normalizeParsedBlock env block).2.2.2, callIsCreateFood c = true := by
  intro c hc
  rcases npbGo_calls env block ([], [], 0, []) c hc with h | h
  · simp at h
  · exact h

lemma pwf_calls (env : ParserEnv) (lines : List String) (th : Rat) :
    ∀ (strats : List String) (c : ApiCall),
      c ∈ (parseWithFallback env lines th strats).2.2.2 → callIsParse c = true := by
  intro strats
  induction strats with
  | nil => intro c hc; simp [parseWithFallback] at hc
  | cons strategy rest ih =>
      intro c hc
      simp only [parseWithFallback] at hc
      rcases hp : env.parseResult strategy lines with _ | parsed
      · rw [hp] at hc
        simp only [List.mem_cons] at hc
        rcases hc with hc | hc
        · subst hc; rfl
        · exact ih c hc
      · rw [hp] at hc
        cases parsed with
        | nil =>
            simp only [List.mem_cons] at hc
            rcases hc with hc | hc
            · subst hc; rfl
            · exact ih c hc
        | cons x xs =>
            dsimp only at hc
            by_cases hall : (x :: xs).all (fun it => th ≤ confidenceOf it)
            · rw [if_pos hall] at hc
              simp only [List.mem_singleton] at hc
              subst hc; rfl
            · rw [if_neg hall] at hc
              simp only [List.mem_cons] at hc
              rcases hc with hc | hc
              · subst hc; rfl
              · exact ih c hc

lemma processSlug_calls (env : ParserEnv) (cfg : ParserRunConfig) (slug : String) :
    ∀ c ∈ (processSlug env cfg slug).calls,
      c = .getRecipe slug ∨ callIsParse c = true ∨ callIsCreateFood c = true ∨
        (cfg.dryRun = false ∧ ∃ ings, c = .patchRecipeIngredients slug ings ∧
          ∀ ing ∈ ings, isBlankIngredient ing = false) := by
  intro c hc
  unfold processSlug at hc
  rcases hg : env.getRecipe slug with _ | recipe
  · rw [hg] at hc
    simp only [List.mem_singleton] at hc
    exact Or.inl hc
  · rw [hg] at hc
    dsimp only at hc
    rcases he : extractRawLines recipe with u | rawLines0
    · rw [he] at hc
      simp only [List.mem_singleton] at hc
      exact Or.inl hc
    · rw [he] at hc
      dsimp only at hc
      by_cases h0 : rawLines0.isEmpty
      · rw [if_pos h0] at hc
        simp only [List.mem_singleton] at hc
        exact Or.inl hc
      · rw [if_neg h0] at hc
        by_cases h1 : ((sanitizeRawLines rawLines0).1).isEmpty
        · rw [if_pos h1] at hc
          simp only [List.mem_singleton] at hc
          exact Or.inl hc
        · rw [if_neg h1] at hc
          rcases hu : (parseWithFallback env (sanitizeRawLines rawLines0).1
              cfg.confidenceThreshold cfg.parserStrategies).2.1 with _ | strat
          · rw [hu] at hc
            simp only [List.mem_cons] at hc
            rcases hc with hc | hc
            · exact Or.inl hc
            · exact Or.inr (Or.inl (pwf_calls env _ _ _ c hc))
          · rw [hu] at hc
            dsimp only at hc
            by_cases h2 : (normalizeParsedBlock env (parseWithFallback env
                (sanitizeRawLines rawLines0).1 cfg.confidenceThreshold
                cfg.parserStrategies).1).1.isEmpty
            · rw [if_pos h2] at hc
              simp only [List.mem_cons, List.mem_append] at hc
              rcases hc with (hc | hc) | hc
              · exact Or.inl hc
              · exact Or.inr (Or.inl (pwf_calls env _ _ _ c hc))
              · exact Or.inr (Or.inr (Or.inl (npb_calls env _ c hc)))
            · rw [if_neg h2] at hc
              by_cases h3 : ¬ ((normalizeParsedBlock env (parseWithFallback env
                  (sanitizeRawLines rawLines0).1 cfg.confidenceThreshold
                  cfg.parserStrategies).1).2.1).isEmpty
              · rw [if_pos h3] at hc
                simp only [List.mem_cons, List.mem_append] at hc
                rcases hc with (hc | hc) | hc
                · exact Or.inl hc
                · exact Or.inr (Or.inl (pwf_calls env _ _ _ c hc))
                · exact Or.inr (Or.inr (Or.inl (npb_calls env _ c hc)))
              · rw [if_neg h3] at hc
                by_cases h4 : cfg.dryRun
                · rw [if_pos h4] at hc
                  simp only [List.mem_cons, List.mem_append] at hc
                  rcases hc with (hc | hc) | hc
                  · exact Or.inl hc
                  · exact Or.inr (Or.inl (pwf_calls env _ _ _ c hc))
                  · exact Or.inr (Or.inr (Or.inl (npb_calls env _ c hc)))
                · rw [if_neg h4] at hc
                  have hpatch : ∀ ings,
                      c ∈ ((ApiCall.getRecipe slug :: (parseWithFallback env
                        (sanitizeRawLines rawLines0).1 cfg.confidenceThreshold
                        cfg.parserStrategies).2.2.2) ++ (normalizeParsedBlock env
                        (parseWithFallback env (sanitizeRawLines rawLines0).1
                          cfg.confidenceThreshold cfg.parserStrategies).1).2.2.2)
                        ++ [ApiCall.patchRecipeIngredients slug ings] →
                      ings = (normalizeParsedBlock env (parseWithFallback env
                        (sanitizeRawLines rawLines0).1 cfg.confidenceThreshold
                        cfg.parserStrategies).1).1 →
                      c = ApiCall.getRecipe slug ∨ callIsParse c = true ∨
                        callIsCreateFood c = true ∨
                        (cfg.dryRun = false ∧ ∃ ings2,
                          c = ApiCall.patchRecipeIngredients slug ings2 ∧
                          ∀ ing ∈ ings2, isBlankIngredient ing = false) := by
                    intro ings hmem hings
                    simp only [List.mem_append, List.mem_cons,
                      List.mem_singleton] at hmem
                    rcases hmem with ((hc2 | hc2) | hc2) | hc2 | hc2
                    · exact Or.inl hc2
                    · exact Or.inr (Or.inl (pwf_calls env _ _ _ c hc2))
                    · exact Or.inr (Or.inr (Or.inl (npb_calls env _ c hc2)))
                    · refine Or.inr (Or.inr (Or.inr ⟨by simpa using h4, ings, hc2, ?_⟩))
                      rw [hings]
                      exact npb_norm_nonblank env _
                    · simp at hc2
                  by_cases h5 : env.patchOk slug (normalizeParsedBlock env
                      (parseWithFallback env (sanitizeRawLines rawLines0).1
                        cfg.confidenceThreshold cfg.parserStrategies).1).1
                  · rw [if_pos h5] at hc
                    exact hpatch _ hc rfl
                  · rw [if_neg h5] at hc
                    exact hpatch _ hc rfl

lemma foldStep_calls (env : ParserEnv) (cfg : ParserRunConfig)
    (acc : RunResult) (slug : String) :
    (foldStep env cfg acc slug).calls =
      acc.calls ++ (processSlug env cfg slug).calls := by
  unfold foldStep
  dsimp only
  split <;> rfl

lemma foldl_calls_mem (env : ParserEnv) (cfg : ParserRunConfig) :
    ∀ (slugs : List String) (acc : RunResult) (c : ApiCall),
      c ∈ (List.foldl (foldStep env cfg) acc slugs).calls →
      c ∈ acc.calls ∨ ∃ slug, c ∈ (processSlug env cfg slug).calls := by
  intro slugs
  induction slugs with
  | nil => intro acc c hc; exact Or.inl hc
  | cons s rest ih =>
      intro acc c hc
      simp only [List.foldl_cons] at hc
      rcases ih _ c hc with h | h
      · rw [foldStep_calls] at h
        simp only [List.mem_append] at h
        rcases h with h | h
        · exact Or.inl h
        · exact Or.inr ⟨s, h⟩
      · exact Or.inr h

lemma runTrace_mem (env : ParserEnv) (cfg : ParserRunConfig) :
    ∀ c ∈ runParserTrace env cfg,
      c = .getRecipes ∨ ∃ slug, c ∈ (processSlug env cfg slug).calls := by
  intro c hc
  unfold runParserTrace runParser at hc
  by_cases hguard : ¬ (0 < cfg.confidenceThreshold ∧ cfg.confidenceThreshold ≤ 1)
  · rw [if_pos hguard] at hc
    simp at hc
  · rw [if_neg hguard] at hc
    dsimp only at hc
    rcases foldl_calls_mem env cfg _ _ c hc with h | h
    · simp only [List.mem_singleton] at h
      exact Or.inl h
    · exact Or.inr h

/-! ## Claim theorems -/

/-- C6: blank-ingredient drop invariant.  For every parsed block, the
normalized list is exactly the non-blank normalized lines, the drop
counter counts exactly the blank ones, every ingredient in the normalized
list is non-blank, and every ingredient-write PATCH issued by a parser run
carries only non-blank ingredients. -/
theorem blank_ingredient_never_written (env : ParserEnv) (block : List Json) :
    ((normalizeParsedBlock env block).1 =
      (block.map (fun it => (normalizeIngredient env it).1)).filter
        (fun ing => !(isBlankIngredient ing))) ∧
    ((normalizeParsedBlock env block).2.2.1 =
      (block.map (fun it => (normalizeIngredient env it).1)).countP
        isBlankIngredient) ∧
    (∀ ing ∈ (normalizeParsedBlock env block).1, isBlankIngredient ing = false) ∧
    (∀ (cfg : ParserRunConfig) (slug : String) (ings : List Json),
      ApiCall.patchRecipeIngredients slug ings ∈ runParserTrace env cfg →
      ∀ ing ∈ ings, isBlankIngredient ing = false) := by
  refine ⟨?_, ?_, npb_norm_nonblank env block, ?_⟩
  · unfold normalizeParsedBlock
    rw [npbGo_norm]
    simp
  · unfold normalizeParsedBlock
    rw [npbGo_dropped]
    simp
  · intro cfg slug ings hmem ing hing
    rcases runTrace_mem env cfg _ hmem with h | ⟨slug2, h⟩
    · simp at h
    · rcases processSlug_calls env cfg slug2 _ h with h1 | h1 | h1 | ⟨_, ings2, heq, hall⟩
      · simp at h1
      · simp [callIsParse] at h1
      · simp [callIsCreateFood] at h1
      · cases heq
        exact hall ing hing

/-- C6 witness: a concrete non-blank normalized line. -/
theorem blank_ingredient_never_written_witness :
    isBlankIngredient (normalizeIngredient envNewFood parsedItemNewFood).1 = false := by
  have h : (normalizeParsedBlock envNewFood [parsedItemNewFood]).1 =
      [(normalizeIngredient envNewFood parsedItemNewFood).1] := by
    with_unfolding_all rfl
  exact (blank_ingredient_never_written envNewFood [parsedItemNewFood]).2.2.1
    (normalizeIngredient envNewFood parsedItemNewFood).1
    (by rw [h]; exact List.mem_singleton.mpr rfl)

/-- C1 counterexample: with dry-run set, a parser run over a recipe whose
parsed block proposes a new food by name still issues the create-food
POST (normalization runs before the dry-run branch in `run_parser`). -/
theorem dry_run_create_food_cex :
    cfgDry.dryRun = true ∧
    ApiCall.createFood "basil" ∈ runParserTrace envNewFood cfgDry ∧
    (ApiCall.createFood "basil").isMutation = true := by
  refine ⟨rfl, ?_, rfl⟩
  have h : runParserTrace envNewFood cfgDry =
      [.getRecipes, .getRecipe "r1", .parseIngredients "nlp" ["1 cup basil"],
        .createFood "basil"] := by with_unfolding_all rfl
  rw [h]
  simp

/-- C1 amended: with dry-run set, no recipe PATCH is ever issued — the
parser run's trace contains no ingredient-write PATCH, and the classifier's
`update_recipe_metadata` issues no call at all; the parser's create-food
POST during normalization, however, is not suppressed by dry-run. -/
theorem dry_run_no_recipe_patch (env : ParserEnv) (cfg : ParserRunConfig)
    (hdry : cfg.dryRun = true) :
    (∀ c ∈ runParserTrace env cfg, callIsPatchIngs c = false) ∧
    (∀ (replaceExisting : Bool) (recipe : Json)
       (categoryNames tagNames : List String)
       (categoriesByName tagsByName : String → Option Json)
       (patchStatus : String → Nat),
       (updateRecipeMetadata true replaceExisting recipe categoryNames tagNames
         categoriesByName tagsByName patchStatus).calls = []) := by
  constructor
  · intro c hc
    rcases runTrace_mem env cfg _ hc with h | ⟨slug, h⟩
    · subst h; rfl
    · rcases processSlug_calls env cfg slug _ h with h1 | h1 | h1 | ⟨hfalse, _⟩
      · subst h1; rfl
      · cases c <;> simp_all [callIsParse, callIsPatchIngs]
      · cases c <;> simp_all [callIsCreateFood, callIsPatchIngs]
      · rw [hdry] at hfalse
        exact absurd hfalse (by simp)
  · intro replaceExisting recipe cn tn cbn tbn pst
    unfold updateRecipeMetadata
    dsimp only
    split_ifs <;> simp_all

/-- C1 witness: the amended theorem applied at the concrete dry-run
environment. -/
theorem dry_run_no_recipe_patch_witness :
    callIsPatchIngs (ApiCall.createFood "basil") = false ∧
    (updateRecipeMetadata true false recCached ["Lunch"] ["Fast"]
      (fun _ => none) (fun _ => none) (fun _ => 200)).calls = [] := by
  constructor
  · refine (dry_run_no_recipe_patch envNewFood cfgDry rfl).1 _ ?_
    have h : runParserTrace envNewFood cfgDry =
        [.getRecipes, .getRecipe "r1", .parseIngredients "nlp" ["1 cup basil"],
          .createFood "basil"] := by with_unfolding_all rfl
    rw [h]
    simp
  · exact (dry_run_no_recipe_patch envNewFood cfgDry rfl).2 false recCached
      ["Lunch"] ["Fast"] (fun _ => none) (fun _ => none) (fun _ => 200)

/-- C10: a parsed unit given as a dict without a non-empty id is set to
null by normalization; the parsing pipeline never issues a create-unit
call (units are silently discarded), while a food proposed by name without
an id does trigger the create-food POST. -/
theorem unit_entity_without_id_dropped :
    (∀ (env : ParserEnv) (item u : Json) (fl : List (String × Json)),
       truthy (jget item "ingredient") = true →
       jget item "ingredient" = Json.obj fl →
       jget (Json.obj fl) "unit" = u →
       (∃ f2, u = Json.obj f2) →
       pyStrip (pyStrOr (jget u "id")) = "" →
       jget (normalizeIngredient env item).1 "unit" = Json.null) ∧
    (∀ (env : ParserEnv) (cfg : ParserRunConfig) (c : ApiCall),
       c ∈ runParserTrace env cfg → callIsCreateUnit c = false) ∧
    (∀ (env : ParserEnv) (food : Json) (fl : List (String × Json)) (nm : String),
       food = Json.obj fl → truthy (jget food "id") = false →
       pyStrip (pyStrOr (jget food "name")) = nm → nm ≠ "" →
       (ensureFoodObject env food).2 = [.createFood nm]) := by
  refine ⟨?_, ?_, ?_⟩
  · intro env item u fl htr hobj hu hf2 hid
    obtain ⟨f2, hf2⟩ := hf2
    have hslim : slimEntity u = none := by
      rw [hf2] at hid ⊢
      simp only [slimEntity]
      rw [if_pos hid]
    unfold normalizeIngredient
    dsimp only
    rw [if_pos htr, hobj]
    simp only [objFieldsOf]
    have h1 : jget (Json.obj (objSet fl "food"
        (((ensureFoodObject env (jget (Json.obj fl) "food")).1).getD .null)))
        "unit" = u := by
      simp only [jget]
      rw [findField_objSet_ne fl "food" _ "unit" (by decide)]
      simpa [jget] using hu
    rw [h1, hslim]
    simp only [jget, Option.getD_none]
    rw [findField_objDrop_ne _ "display" "unit" (by decide),
      findField_objDrop_ne _ "confidence" "unit" (by decide),
      findField_objSet_self]
    rfl
  · intro env cfg c hc
    rcases runTrace_mem env cfg _ hc with h | ⟨slug, h⟩
    · subst h; rfl
    · rcases processSlug_calls env cfg slug _ h with h1 | h1 | h1 | ⟨_, ings2, heq, _⟩
      · subst h1; rfl
      · cases c <;> simp_all [callIsParse, callIsCreateUnit]
      · cases c <;> simp_all [callIsCreateFood, callIsCreateUnit]
      · subst heq; rfl
  · intro env food fl nm hfood hid hname hne
    subst hfood
    simp only [ensureFoodObject]
    rw [if_neg (by simp [hid])]
    rw [hname, if_neg hne]
    rcases env.createFood nm with _ | created <;> rfl

/-- C10 witness: the unit proposed by name only is nulled, while the food
proposed by name only triggers the create call. -/
theorem unit_entity_without_id_dropped_witness :
    jget (normalizeIngredient envNewFood parsedItemNamedUnit).1 "unit" = Json.null ∧
    (ensureFoodObject envNewFood (Json.obj [("name", Json.str "basil")])).2 =
      [ApiCall.createFood "basil"] := by
  constructor
  · exact unit_entity_without_id_dropped.1 envNewFood parsedItemNamedUnit
      (Json.obj [("name", Json.str "cups")])
      [("note", Json.str "fresh"), ("quantity", Json.num 2),
        ("food", Json.obj [("id", Json.str "f1"), ("name", Json.str "basil")]),
        ("unit", Json.obj [("name", Json.str "cups")])]
      rfl rfl rfl ⟨_, rfl⟩ (by with_unfolding_all rfl)
  · exact unit_entity_without_id_dropped.2.2 envNewFood _
      [("name", Json.str "basil")] "basil" rfl rfl (by with_unfolding_all rfl)
      (by simp)

/-- C3 counterexample: a structured ingredient list in which only the
first entry carries a food reference is treated as already parsed
(`AlreadyParsed` raised), although not every entry has a non-null food. -/
theorem already_parsed_mixed_cex :
    extractRawLines recMixedFoods = Except.error () ∧
    isNull (jget mixedEntryNullFood "food") = true ∧
    jget recMixedFoods "recipeIngredient" =
      Json.arr [Json.obj [("food", Json.obj [("id", Json.str "f1")]),
        ("note", Json.str "beef")], mixedEntryNullFood] := by
  refine ⟨by with_unfolding_all rfl, rfl, rfl⟩

/-- C3 amended: for a non-empty structured (dict-headed) ingredient list,
the pipeline treats the recipe as already parsed exactly when **at least
one** dict entry has a non-null food reference (not when every entry
does); the outcome is terminal with no further call. -/
theorem already_parsed_detection (r : Json) (items : List Json)
    (h2 : hasKey r "recipeIngredient" = true)
    (h1 : jget r "recipeIngredient" = Json.arr items)
    (fl : List (String × Json)) (rest : List Json)
    (hitems : items = Json.obj fl :: rest) :
    (extractRawLines r = .error () ↔
      ∃ it ∈ items, isObjJ it = true ∧ isNull (jget it "food") = false) ∧
    (∀ (env : ParserEnv) (cfg : ParserRunConfig) (slug : String),
       env.getRecipe slug = some r → extractRawLines r = .error () →
       (processSlug env cfg slug).tag = StepTag.alreadyParsed ∧
       (processSlug env cfg slug).calls = [.getRecipe slug]) := by
  constructor
  · subst hitems
    unfold extractRawLines
    rw [if_pos h2, h1]
    have htr : truthy (Json.arr (Json.obj fl :: rest)) = true := by
      simp [truthy]
    dsimp only
    rw [if_pos htr]
    dsimp only
    by_cases hall : (Json.obj fl :: rest).all entryFoodNull
    · rw [if_neg (by simpa using hall)]
      constructor
      · intro h
        simp at h
      · rintro ⟨it, hmem, hobj2, hfood⟩
        have hp := List.all_eq_true.mp hall it hmem
        unfold entryFoodNull at hp
        rw [if_pos hobj2] at hp
        rw [hp] at hfood
        simp at hfood
    · rw [if_pos (by simpa using hall)]
      constructor
      · intro _
        have hex : ∃ it ∈ (Json.obj fl :: rest), ¬ (entryFoodNull it = true) := by
          by_contra hno
          push_neg at hno
          exact hall (List.all_eq_true.mpr hno)
        obtain ⟨it, hmem, hne⟩ := hex
        refine ⟨it, hmem, ?_⟩
        unfold entryFoodNull at hne
        by_cases ho : isObjJ it = true
        · rw [if_pos ho] at hne
          exact ⟨ho, by simpa using hne⟩
        · rw [if_neg ho] at hne
          exact absurd rfl hne
      · intro _
        rfl
  · intro env cfg slug hget herr
    unfold processSlug
    rw [hget]
    dsimp only
    rw [herr]
    exact ⟨rfl, rfl⟩

/-- C3 witness: the amended detection applied to the mixed-food recipe. -/
theorem already_parsed_detection_witness :
    extractRawLines recMixedFoods = Except.error () ∧
    (processSlug envMixed cfgWet "m1").tag = StepTag.alreadyParsed := by
  have hthm := already_parsed_detection recMixedFoods
    [Json.obj [("food", Json.obj [("id", Json.str "f1")]), ("note", Json.str "beef")],
      mixedEntryNullFood]
    rfl rfl
    [("food", Json.obj [("id", Json.str "f1")]), ("note", Json.str "beef")]
    [mixedEntryNullFood] rfl
  have herr : extractRawLines recMixedFoods = .error () :=
    hthm.1.mpr ⟨Json.obj [("food", Json.obj [("id", Json.str "f1")]),
      ("note", Json.str "beef")], by simp, rfl, rfl⟩
  exact ⟨herr, (hthm.2 envMixed cfgWet "m1" (by with_unfolding_all rfl) herr).1⟩

/-- C7 counterexample: a line with zero quantity, a non-null unit outside
the allow-list, and a note that does not say "to taste" is **not** flagged
suspicious, because its note contains the serving phrase "for serving" —
an exemption the claim omits. -/
theorem suspicious_serving_phrase_cex :
    suspicionReason ingServing = none ∧
    quantityValue (jget ingServing "quantity") = 0 ∧
    isNull (jget ingServing "unit") = false ∧
    ZERO_QTY_ALLOWED_UNITS.contains (entityName (jget ingServing "unit")) = false ∧
    pyContains (pyLower (noteOf ingServing)) "to taste" = false ∧
    isBlankIngredient ingServing = false := by
  refine ⟨by with_unfolding_all rfl, by with_unfolding_all rfl, rfl,
    by with_unfolding_all rfl, by with_unfolding_all rfl,
    by with_unfolding_all rfl⟩

/-- C7 amended: a normalized line is flagged suspicious exactly when it is
not blank, its note contains no serving phrase ("for serving"/"for
garnish"/"for dipping"), and either zero quantity co-occurs with a
non-null unit outside the allow-list with no "to taste" note
(zero_qty_with_unit), or — when the zero-quantity-with-unit situation does
not apply — the line has a null food and an empty note
(missing_food_no_note); whenever any line of the normalized block carries
a suspicion reason the whole recipe is routed to needs_review with reason
suspicious_result and its step issues no ingredient PATCH. -/
theorem suspicious_result_gating :
    (∀ ing : Json,
      (suspicionReason ing = some "zero_qty_with_unit" ↔
        isBlankIngredient ing = false ∧
        SERVING_PHRASES.any
          (fun phrase => pyContains (pyLower (noteOf ing)) phrase) = false ∧
        (quantityValue (jget ing "quantity") = 0 ∧
          ¬ isNull (jget ing "unit") = true) ∧
        ¬ (entityName (jget ing "unit") ∈ ZERO_QTY_ALLOWED_UNITS ∨
            pyContains (pyLower (noteOf ing)) "to taste" = true)) ∧
      (suspicionReason ing = some "missing_food_no_note" ↔
        isBlankIngredient ing = false ∧
        SERVING_PHRASES.any
          (fun phrase => pyContains (pyLower (noteOf ing)) phrase) = false ∧
        ¬ (quantityValue (jget ing "quantity") = 0 ∧
            ¬ isNull (jget ing "unit") = true) ∧
        (isNull (jget ing "food") = true ∧ pyLower (noteOf ing) = ""))) ∧
    (∀ (env : ParserEnv) (block : List Json),
      ((normalizeParsedBlock env block).2.1 ≠ [] ↔
        ∃ item ∈ block,
          isBlankIngredient (normalizeIngredient env item).1 = false ∧
          suspicionReason (normalizeIngredient env item).1 ≠ none)) ∧
    (∀ (env : ParserEnv) (cfg : ParserRunConfig) (slug : String) (recipe : Json)
       (rawLines0 : List String) (strat : String),
      env.getRecipe slug = some recipe →
      extractRawLines recipe = .ok rawLines0 →
      rawLines0.isEmpty = false →
      ((sanitizeRawLines rawLines0).1).isEmpty = false →
      (parseWithFallback env (sanitizeRawLines rawLines0).1
        cfg.confidenceThreshold cfg.parserStrategies).2.1 = some strat →
      ((normalizeParsedBlock env (parseWithFallback env
        (sanitizeRawLines rawLines0).1 cfg.confidenceThreshold
        cfg.parserStrategies).1).1).isEmpty = false →
      ((normalizeParsedBlock env (parseWithFallback env
        (sanitizeRawLines rawLines0).1 cfg.confidenceThreshold
        cfg.parserStrategies).1).2.1).isEmpty = false →
      (processSlug env cfg slug).tag =
        StepTag.reviewed
          (if truthy (jget recipe "name") then pyStr (jget recipe "name") else slug)
          "suspicious_result" ∧
      ∀ c ∈ (processSlug env cfg slug).calls, callIsPatchIngs c = false) := by
  refine ⟨?_, ?_, ?_⟩
  · intro ing
    unfold suspicionReason
    dsimp only
    constructor
    · constructor
      · intro h
        split_ifs at h with hb hs hz ha hf <;>
          first
            | exact ⟨by simpa using hb, by simpa using hs, hz, ha⟩
            | simp at h
      · rintro ⟨hb, hs, hz, ha⟩
        rw [if_neg (by simp [hb]), if_neg (by simp [hs]), if_pos hz, if_neg ha]
    · constructor
      · intro h
        split_ifs at h with hb hs hz ha hf <;>
          first
            | exact ⟨by simpa using hb, by simpa using hs, hz, hf⟩
            | simp at h
      · rintro ⟨hb, hs, hz, hf⟩
        rw [if_neg (by simp [hb]), if_neg (by simp [hs]), if_neg hz, if_pos hf]
  · intro env block
    unfold normalizeParsedBlock
    rw [ne_eq, npbGo_reasons env block ([], [], 0, [])]
    constructor
    · intro h
      by_contra hno
      push_neg at hno
      refine h ⟨rfl, fun item hmem => ?_⟩
      by_cases hb : isBlankIngredient (normalizeIngredient env item).1 = true
      · exact Or.inl hb
      · exact Or.inr (hno item hmem (by simpa using hb))
    · rintro ⟨item, hmem, hb, hr⟩ hcon
      obtain ⟨_, hall⟩ := hcon
      rcases hall item hmem with h | h
      · rw [hb] at h
        simp at h
      · exact hr h
  · intro env cfg slug recipe rawLines0 strat hget hex hne hsan hpar hnorm hsusp
    unfold processSlug
    rw [hget]
    dsimp only
    rw [hex]
    dsimp only
    rw [if_neg (by simp [hne]), if_neg (by simp [hsan]), hpar]
    dsimp only
    rw [if_neg (by simp [hnorm]), if_pos (by simp [hsusp])]
    refine ⟨rfl, ?_⟩
    intro c hc
    simp only [List.mem_append, List.mem_cons] at hc
    rcases hc with (hc | hc) | hc
    · subst hc; rfl
    · have := pwf_calls env _ _ _ c hc
      cases c <;> simp_all [callIsParse, callIsPatchIngs]
    · have := npb_calls env _ c hc
      cases c <;> simp_all [callIsCreateFood, callIsPatchIngs]

/-- C7 witness: a concrete suspicious parse routes the whole recipe to
review with reason suspicious_result and writes nothing. -/
theorem suspicious_result_gating_witness :
    (processSlug envSusp cfgWet "r1").tag =
      StepTag.reviewed "Recipe One" "suspicious_result" ∧
    callIsPatchIngs (ApiCall.getRecipe "r1") = false := by
  have happ := suspicious_result_gating.2.2 envSusp cfgWet "r1" recFullC1
    ["1 cup basil"] "nlp" (by with_unfolding_all rfl) (by with_unfolding_all rfl)
    (by with_unfolding_all rfl) (by with_unfolding_all rfl)
    (by with_unfolding_all rfl) (by with_unfolding_all rfl)
    (by with_unfolding_all rfl)
  constructor
  · have htag := happ.1
    have heq : (if truthy (jget recFullC1 "name") = true
        then pyStr (jget recFullC1 "name") else "r1") = "Recipe One" := by
      with_unfolding_all rfl
    rw [heq] at htag
    exact htag
  · refine happ.2 (ApiCall.getRecipe "r1") ?_
    have hcalls : (processSlug envSusp cfgWet "r1").calls =
        [.getRecipe "r1", .parseIngredients "nlp" ["1 cup basil"]] := by
      with_unfolding_all rfl
    rw [hcalls]
    simp

/-! ## Lemmas: the checkpointed merge-apply loop -/

lemma mergeSourceOf_mergeCallOf (kind : CleanupKind) (s t : String) :
    mergeSourceOf (mergeCallOf kind s t) = some s := by
  cases kind <;> rfl

lemma amLoop_calls (kind : CleanupKind) (ck : List String) (cap : Nat)
    (exe : Bool) (ok : MergeAction → Bool) :
    ∀ (plan : List MergeAction) (s : CleanupOutcome) (c : ApiCall),
      c ∈ (applyMergeLoop kind ck cap exe ok plan s).calls →
      c ∈ s.calls ∨ ∃ a ∈ plan, a.sourceId ∉ ck ∧
        c = mergeCallOf kind a.sourceId a.targetId := by
  intro plan
  induction plan with
  | nil => intro s c hc; exact Or.inl hc
  | cons a rest ih =>
      intro s c hc
      simp only [applyMergeLoop] at hc
      by_cases hck : a.sourceId ∈ ck
      · rw [if_pos hck] at hc
        rcases ih _ c hc with h | ⟨b, hb, hbck, hbc⟩
        · exact Or.inl h
        · exact Or.inr ⟨b, List.mem_cons_of_mem a hb, hbck, hbc⟩
      · rw [if_neg hck] at hc
        by_cases hbreak : exe = true ∧ cap ≤ s.applied
        · rw [if_pos hbreak] at hc
          exact Or.inl hc
        · rw [if_neg hbreak] at hc
          by_cases hexe : exe = true
          · rw [if_pos hexe] at hc
            by_cases hok : ok a = true
            · rw [if_pos hok] at hc
              rcases ih _ c hc with h | ⟨b, hb, hbck, hbc⟩
              · simp only [List.mem_append, List.mem_singleton] at h
                rcases h with h | h
                · exact Or.inl h
                · exact Or.inr ⟨a, List.mem_cons_self a rest, hck, h⟩
              · exact Or.inr ⟨b, List.mem_cons_of_mem a hb, hbck, hbc⟩
            · rw [if_neg hok] at hc
              rcases ih _ c hc with h | ⟨b, hb, hbck, hbc⟩
              · simp only [List.mem_append, List.mem_singleton] at h
                rcases h with h | h
                · exact Or.inl h
                · exact Or.inr ⟨a, List.mem_cons_self a rest, hck, h⟩
              · exact Or.inr ⟨b, List.mem_cons_of_mem a hb, hbck, hbc⟩
          · rw [if_neg hexe] at hc
            rcases ih _ c hc with h | ⟨b, hb, hbck, hbc⟩
            · exact Or.inl h
            · exact Or.inr ⟨b, List.mem_cons_of_mem a hb, hbck, hbc⟩

lemma amLoop_audit (kind : CleanupKind) (ck : List String) (cap : Nat)
    (ok : MergeAction → Bool) :
    ∀ (plan : List MergeAction) (s : CleanupOutcome),
      (applyMergeLoop kind ck cap false ok plan s).calls = s.calls ∧
      (applyMergeLoop kind ck cap false ok plan s).applied = s.applied ∧
      (applyMergeLoop kind ck cap false ok plan s).failed = s.failed ∧
      (applyMergeLoop kind ck cap false ok plan s).saves = s.saves ∧
      (applyMergeLoop kind ck cap false ok plan s).newMerged = s.newMerged ∧
      (applyMergeLoop kind ck cap false ok plan s).skippedCheckpoint =
        s.skippedCheckpoint + plan.countP (fun a => decide (a.sourceId ∈ ck)) ∧
      (applyMergeLoop kind ck cap false ok plan s).attempted =
        s.attempted ++ (plan.filter (fun a => decide (a.sourceId ∉ ck))).map
          (fun a => (a, "planned")) := by
  intro plan
  induction plan with
  | nil => intro s; simp [applyMergeLoop]
  | cons a rest ih =>
      intro s
      simp only [applyMergeLoop]
      by_cases hck : a.sourceId ∈ ck
      · rw [if_pos hck]
        obtain ⟨h1, h2, h3, h4, h5, h6, h7⟩ := ih { s with
          skippedCheckpoint := s.skippedCheckpoint + 1 }
        refine ⟨h1, h2, h3, h4, h5, ?_, ?_⟩
        · rw [h6]
          simp [List.countP_cons, hck]
          omega
        · rw [h7]
          simp [List.filter_cons, hck]
      · rw [if_neg hck]
        rw [if_neg (by simp), if_neg (by simp)]
        obtain ⟨h1, h2, h3, h4, h5, h6, h7⟩ := ih { s with
          attempted := s.attempted ++ [(a, "planned")] }
        refine ⟨h1, h2, h3, h4, h5, ?_, ?_⟩
        · rw [h6]
          simp [List.countP_cons, hck]
        · rw [h7]
          simp [List.filter_cons, hck]

lemma amLoop_exec (kind : CleanupKind) (ck : List String) (cap : Nat)
    (ok : MergeAction → Bool) :
    ∀ (plan : List MergeAction) (s : CleanupOutcome),
      (∀ a ∈ plan, ok a = true) →
      s.applied + plan.countP (fun a => decide (a.sourceId ∉ ck)) ≤ cap →
      (applyMergeLoop kind ck cap true ok plan s).applied =
        s.applied + plan.countP (fun a => decide (a.sourceId ∉ ck)) ∧
      (applyMergeLoop kind ck cap true ok plan s).skippedCheckpoint =
        s.skippedCheckpoint + plan.countP (fun a => decide (a.sourceId ∈ ck)) ∧
      (applyMergeLoop kind ck cap true ok plan s).failed = s.failed ∧
      (applyMergeLoop kind ck cap true ok plan s).newMerged =
        s.newMerged ++ (plan.filter (fun a => decide (a.sourceId ∉ ck))).map
          (fun a => a.sourceId) := by
  intro plan
  induction plan with
  | nil => intro s hok hcap; simp [applyMergeLoop]
  | cons a rest ih =>
      intro s hok hcap
      simp only [applyMergeLoop]
      by_cases hck : a.sourceId ∈ ck
      · rw [if_pos hck]
        have hcap2 : s.applied + rest.countP (fun a => decide (a.sourceId ∉ ck)) ≤ cap := by
          have : (a :: rest).countP (fun a => decide (a.sourceId ∉ ck)) =
              rest.countP (fun a => decide (a.sourceId ∉ ck)) := by
            simp [List.countP_cons, hck]
          omega
        obtain ⟨h1, h2, h3, h4⟩ := ih { s with
            skippedCheckpoint := s.skippedCheckpoint + 1 }
          (fun b hb => hok b (List.mem_cons_of_mem a hb)) hcap2
        refine ⟨?_, ?_, h3, ?_⟩
        · rw [h1]
          simp [List.countP_cons, hck]
        · rw [h2]
          simp [List.countP_cons, hck]
          omega
        · rw [h4]
          simp [List.filter_cons, hck]
      · rw [if_neg hck]
        have hcnt : (a :: rest).countP (fun a => decide (a.sourceId ∉ ck)) =
            rest.countP (fun a => decide (a.sourceId ∉ ck)) + 1 := by
          simp [List.countP_cons, hck]
        have hlt : s.applied < cap := by omega
        rw [if_neg (by simp; omega)]
        rw [if_pos (by simp), if_pos (hok a (List.mem_cons_self a rest))]
        have hcap2 : ({ s with
            applied := s.applied + 1
            attempted := s.attempted ++ [(a, "merged")]
            newMerged := s.newMerged ++ [a.sourceId]
            saves := s.saves ++ [ck ++ s.newMerged ++ [a.sourceId]]
            calls := s.calls ++ [mergeCallOf kind a.sourceId a.targetId]
            : CleanupOutcome }).applied +
            rest.countP (fun a => decide (a.sourceId ∉ ck)) ≤ cap := by
          simp only []
          omega
        obtain ⟨h1, h2, h3, h4⟩ := ih { s with
            applied := s.applied + 1
            attempted := s.attempted ++ [(a, "merged")]
            newMerged := s.newMerged ++ [a.sourceId]
            saves := s.saves ++ [ck ++ s.newMerged ++ [a.sourceId]]
            calls := s.calls ++ [mergeCallOf kind a.sourceId a.targetId] }
          (fun b hb => hok b (List.mem_cons_of_mem a hb)) hcap2
        refine ⟨?_, ?_, h3, ?_⟩
        · rw [h1]
          simp [List.countP_cons, hck]
          omega
        · rw [h2]
          simp [List.countP_cons, hck]
        · rw [h4]
          simp [List.filter_cons, hck]

lemma amLoop_saves (kind : CleanupKind) (ck : List String) (cap : Nat)
    (exe : Bool) (ok : MergeAction → Bool) :
    ∀ (plan : List MergeAction) (s : CleanupOutcome),
      s.saves = (List.range s.newMerged.length).map
        (fun i => ck ++ s.newMerged.take (i + 1)) →
      (applyMergeLoop kind ck cap exe ok plan s).saves =
        (List.range (applyMergeLoop kind ck cap exe ok plan s).newMerged.length).map
          (fun i => ck ++
            (applyMergeLoop kind ck cap exe ok plan s).newMerged.take (i + 1)) := by
  intro plan
  induction plan with
  | nil => intro s h; exact h
  | cons a rest ih =>
      intro s hinv
      simp only [applyMergeLoop]
      by_cases hck : a.sourceId ∈ ck
      · rw [if_pos hck]
        exact ih _ (by simpa using hinv)
      · rw [if_neg hck]
        by_cases hbreak : exe = true ∧ cap ≤ s.applied
        · rw [if_pos hbreak]
          exact hinv
        · rw [if_neg hbreak]
          by_cases hexe : exe = true
          · rw [if_pos hexe]
            by_cases hok : ok a = true
            · rw [if_pos hok]
              apply ih
              simp only []
              rw [hinv]
              have hlen : (s.newMerged ++ [a.sourceId]).length =
                  s.newMerged.length + 1 := by simp
              rw [hlen, List.range_succ, List.map_append]
              congr 1
              · apply List.map_congr_left
                intro i hi
                simp only [List.mem_range] at hi
                rw [List.take_append_of_le_length (by omega)]
              · simp
            · rw [if_neg hok]
              exact ih _ (by simpa using hinv)
          · rw [if_neg hexe]
            exact ih _ (by simpa using hinv)

/-- C2: merge-checkpoint idempotence for the cleanup engines.  No merge
call is ever issued for a source id in the loaded checkpoint; each success
immediately rewrites the checkpoint file with the sources merged so far;
the final checkpoint is the loaded set plus this run's merges; a later run
whose loaded checkpoint covers this run's final checkpoint never merges
any of those sources again; and when every merge succeeds and the eligible
actions fit under the (clamped) cap, actions applied plus checkpoint skips
equal the plan size, with applied bounded by the cap. -/
theorem merge_checkpoint_idempotence (kind : CleanupKind)
    (plan : List MergeAction) (ck : List String) (maxA : Nat)
    (apply dryRun : Bool) (ok : MergeAction → Bool) :
    (∀ c ∈ (runCleanup kind plan ck maxA apply dryRun ok).calls,
      ∀ s, mergeSourceOf c = some s → s ∉ ck) ∧
    ((runCleanup kind plan ck maxA apply dryRun ok).saves =
      (List.range (runCleanup kind plan ck maxA apply dryRun ok).newMerged.length).map
        (fun i => ck ++
          (runCleanup kind plan ck maxA apply dryRun ok).newMerged.take (i + 1))) ∧
    (finalCheckpoint ck (runCleanup kind plan ck maxA apply dryRun ok) =
      ck ++ (runCleanup kind plan ck maxA apply dryRun ok).newMerged) ∧
    (∀ (plan2 : List MergeAction) (maxA2 : Nat) (apply2 dry2 : Bool)
       (ok2 : MergeAction → Bool) (ck2 : List String),
      (∀ s ∈ finalCheckpoint ck (runCleanup kind plan ck maxA apply dryRun ok),
        s ∈ ck2) →
      ∀ c ∈ (runCleanup kind plan2 ck2 maxA2 apply2 dry2 ok2).calls,
        ∀ s, mergeSourceOf c = some s →
          s ∉ finalCheckpoint ck (runCleanup kind plan ck maxA apply dryRun ok)) ∧
    ((∀ a ∈ plan, ok a = true) → apply = true → dryRun = false →
      plan.countP (fun a => decide (a.sourceId ∉ ck)) ≤ max 1 maxA →
      (runCleanup kind plan ck maxA apply dryRun ok).applied +
        (runCleanup kind plan ck maxA apply dryRun ok).skippedCheckpoint =
          plan.length ∧
      (runCleanup kind plan ck maxA apply dryRun ok).applied ≤ max 1 maxA) := by
  refine ⟨?_, ?_, rfl, ?_, ?_⟩
  · intro c hc s hsrc
    unfold runCleanup at hc
    rcases amLoop_calls kind ck (max 1 maxA) (apply && !dryRun) ok plan _ c hc with
      h | ⟨a, ha, hack, heq⟩
    · simp at h
    · subst heq
      rw [mergeSourceOf_mergeCallOf] at hsrc
      cases hsrc
      exact hack
  · unfold runCleanup
    exact amLoop_saves kind ck (max 1 maxA) (apply && !dryRun) ok plan _ (by simp)
  · intro plan2 maxA2 apply2 dry2 ok2 ck2 hsub c hc s hsrc hmem
    unfold runCleanup at hc
    rcases amLoop_calls kind ck2 (max 1 maxA2) (apply2 && !dry2) ok2 plan2 _ c hc
      with h | ⟨a, ha, hack, heq⟩
    · simp at h
    · subst heq
      rw [mergeSourceOf_mergeCallOf] at hsrc
      cases hsrc
      exact hack (hsub _ hmem)
  · intro hok happly hdry hcap
    subst happly
    subst hdry
    have h := amLoop_exec kind ck (max 1 maxA) ok plan ⟨0, 0, 0, [], [], [], []⟩
      hok (by simpa using hcap)
    have hlen : plan.countP (fun a => decide (a.sourceId ∉ ck)) +
        plan.countP (fun a => decide (a.sourceId ∈ ck)) = plan.length := by
      rw [List.length_eq_countP_add_countP (fun a => decide (a.sourceId ∉ ck)) plan]
      congr 1
      apply List.countP_congr
      intro a _
      simp
    constructor
    · show (applyMergeLoop kind ck (max 1 maxA) true ok plan
          ⟨0, 0, 0, [], [], [], []⟩).applied +
        (applyMergeLoop kind ck (max 1 maxA) true ok plan
          ⟨0, 0, 0, [], [], [], []⟩).skippedCheckpoint = plan.length
      rw [h.1, h.2.1]
      simpa using hlen
    · show (applyMergeLoop kind ck (max 1 maxA) true ok plan
          ⟨0, 0, 0, [], [], [], []⟩).applied ≤ max 1 maxA
      rw [h.1]
      simpa using hcap

/-- C2 witness: a two-action plan with one source already checkpointed. -/
theorem merge_checkpoint_idempotence_witness :
    (runCleanup .foods [actS1, actS2] ["s1"] 5 true false (fun _ => true)).applied +
      (runCleanup .foods [actS1, actS2] ["s1"] 5 true false
        (fun _ => true)).skippedCheckpoint = 2 ∧
    (runCleanup .foods [actS1, actS2] ["s1"] 5 true false
      (fun _ => true)).applied ≤ max 1 5 := by
  have h := (merge_checkpoint_idempotence .foods [actS1, actS2] ["s1"] 5 true
    false (fun _ => true)).2.2.2.2 (fun a _ => rfl) rfl rfl (by decide)
  exact ⟨by simpa using h.1, h.2⟩

/-- C4 counterexample: an audit run over a one-action plan whose source is
already checkpointed reports **no** attempted/planned action at all — the
checkpointed entry is only counted as checkpoint_skipped, contrary to the
claim that the report contains every action of the computed plan. -/
theorem audit_report_excludes_checkpointed_cex :
    (runCleanup .foods [actS1] ["s1"] 250 false false (fun _ => true)).attempted
      = [] ∧
    (runCleanup .foods [actS1] ["s1"] 250 false false
      (fun _ => true)).skippedCheckpoint = 1 ∧
    (runCleanup .foods [actS1] ["s1"] 250 false false (fun _ => true)).calls = [] ∧
    actS1.sourceId ∈ ["s1"] ∧ ([actS1] : List MergeAction) ≠ [] := by
  refine ⟨rfl, rfl, rfl, by simp [actS1], by simp⟩

/-- C4 amended: in audit mode (apply unset or dry-run set) no remote call
is issued and nothing is merged or checkpointed; the attempted report
lists exactly the plan's actions whose source is **not** already in the
checkpoint (as planned), while checkpointed actions are only counted in
checkpoint_skipped and are excluded from the report. -/
theorem audit_mode_no_mutation (kind : CleanupKind) (plan : List MergeAction)
    (ck : List String) (maxA : Nat) (apply dryRun : Bool)
    (ok : MergeAction → Bool) (haudit : apply = false ∨ dryRun = true) :
    (runCleanup kind plan ck maxA apply dryRun ok).calls = [] ∧
    (runCleanup kind plan ck maxA apply dryRun ok).applied = 0 ∧
    (runCleanup kind plan ck maxA apply dryRun ok).failed = 0 ∧
    (runCleanup kind plan ck maxA apply dryRun ok).newMerged = [] ∧
    (runCleanup kind plan ck maxA apply dryRun ok).saves = [] ∧
    (runCleanup kind plan ck maxA apply dryRun ok).attempted =
      (plan.filter (fun a => decide (a.sourceId ∉ ck))).map
        (fun a => (a, "planned")) ∧
    (runCleanup kind plan ck maxA apply dryRun ok).skippedCheckpoint =
      plan.countP (fun a => decide (a.sourceId ∈ ck)) := by
  have hexe : (apply && !dryRun) = false := by
    rcases haudit with h | h <;> simp [h]
  unfold runCleanup
  rw [hexe]
  obtain ⟨h1, h2, h3, h4, h5, h6, h7⟩ :=
    amLoop_audit kind ck (max 1 maxA) ok plan ⟨0, 0, 0, [], [], [], []⟩
  exact ⟨h1, h2, h3, h5, h4, by simpa using h7, by simpa using h6⟩

/-- C4 witness: a concrete audit run with one checkpointed and one fresh
action. -/
theorem audit_mode_no_mutation_witness :
    (runCleanup .units [actS1, actS2] ["s1"] 250 false true
      (fun _ => true)).calls = [] ∧
    (runCleanup .units [actS1, actS2] ["s1"] 250 false true
      (fun _ => true)).attempted = [(actS2, "planned")] := by
  have h := audit_mode_no_mutation .units [actS1, actS2] ["s1"] 250 false true
    (fun _ => true) (Or.inr rfl)
  refine ⟨h.1, ?_⟩
  rw [h.2.2.2.2.2.1]
  rfl

/-- C8 counterexample: the retry policy built by the client explicitly
allows the non-idempotent methods POST and PATCH, so transport retries are
not restricted to idempotent methods. -/
theorem retry_policy_nonidempotent_cex :
    buildRetryPolicy 3 (2/5) = Sum.inr
      { total := 3, connect := 3, read := 3, backoffFactor := 2/5
        statusForcelist := [429, 500, 502, 503, 504]
        allowedMethods := ["GET", "POST", "PUT", "PATCH", "DELETE"]
        raiseOnStatus := false } ∧
    "POST" ∈ ["GET", "POST", "PUT", "PATCH", "DELETE"] ∧
    "POST" ∉ idempotentMethods ∧ "PATCH" ∉ idempotentMethods := by
  refine ⟨by with_unfolding_all rfl, by simp, by simp [idempotentMethods],
    by simp [idempotentMethods]⟩

/-- C8 amended: with a positive retry budget the policy retries on
429/500/502/503/504 with the configured backoff factor for **all** of
GET, POST, PUT, PATCH and DELETE (not only idempotent methods); a
non-positive budget disables automatic retrying entirely. -/
theorem retry_policy_all_methods (retries : Int) (backoff : Rat) :
    (retries ≤ 0 → buildRetryPolicy retries backoff = .inl 0) ∧
    (0 < retries → ∃ p, buildRetryPolicy retries backoff = .inr p ∧
      p.total = retries.toNat ∧ p.backoffFactor = max backoff 0 ∧
      p.statusForcelist = [429, 500, 502, 503, 504] ∧
      p.allowedMethods = ["GET", "POST", "PUT", "PATCH", "DELETE"] ∧
      p.raiseOnStatus = false ∧
      ¬ (∀ m ∈ p.allowedMethods, m ∈ idempotentMethods)) := by
  constructor
  · intro h
    unfold buildRetryPolicy
    rw [if_pos (max_eq_right h)]
  · intro h
    unfold buildRetryPolicy
    rw [if_neg (by rw [max_eq_left (le_of_lt h)]; omega)]
    refine ⟨_, rfl, by rw [max_eq_left (le_of_lt h)], rfl, rfl, rfl, rfl, ?_⟩
    intro hall
    have := hall "POST" (by simp)
    simp [idempotentMethods] at this

/-- C8 witness: the amended policy description at concrete budgets. -/
theorem retry_policy_all_methods_witness :
    buildRetryPolicy (-2) (1/2) = Sum.inl 0 ∧
    ¬ (∀ m ∈ ["GET", "POST", "PUT", "PATCH", "DELETE"],
        m ∈ idempotentMethods) := by
  constructor
  · exact (retry_policy_all_methods (-2) (1/2)).1 (by decide)
  · obtain ⟨p, _, _, _, _, hm, _, hni⟩ :=
      (retry_policy_all_methods 3 (2/5)).2 (by decide)
    rw [hm] at hni
    exact hni

/-- C9 counterexample: with forced re-categorization (`replace_existing`)
and dry-run off, a cached recipe with non-empty categories and tags is
**not** skipped — it stays in the batch sent to the LLM and
`cached_skipped` stays 0. -/
theorem cache_skip_replace_cex :
    processBatchTargets true false ["abc"] [recCached] = ([recCached], 0) ∧
    cacheSkipCond ["abc"] recCached = true := by
  exact ⟨rfl, by with_unfolding_all rfl⟩

/-- C9 amended: the pre-flight cache skip of `process_batch` removes and
counts exactly the recipes whose slug is cached with non-empty categories
and tags, but only when neither global dry-run nor forced
re-categorization is active; under dry-run the whole batch is evaluated
and nothing is counted as cached. -/
theorem cache_preflight_skip (replace dry : Bool) (cache : List String)
    (batch : List Json) :
    (dry = true → processBatchTargets replace dry cache batch = (batch, 0)) ∧
    (replace = false → dry = false →
      (∀ r ∈ batch, cacheSkipCond cache r = true →
        r ∉ (processBatchTargets replace dry cache batch).1) ∧
      (∀ r ∈ batch, cacheSkipCond cache r = false →
        r ∈ (processBatchTargets replace dry cache batch).1) ∧
      (processBatchTargets replace dry cache batch).2 =
        (batch.filter (cacheSkipCond cache)).length) := by
  constructor
  · intro h
    subst h
    unfold processBatchTargets
    rw [if_neg (by simp)]
  · intro hrep hdry
    subst hrep
    subst hdry
    unfold processBatchTargets
    rw [if_pos (by simp)]
    refine ⟨?_, ?_, rfl⟩
    · intro r hr hcond hmem
      simp only [List.mem_filter] at hmem
      rw [hcond] at hmem
      simp at hmem
    · intro r hr hcond
      simp only [List.mem_filter]
      exact ⟨hr, by simp [hcond]⟩

/-- C9 witness: the amended skip rule at a concrete cached recipe. -/
theorem cache_preflight_skip_witness :
    processBatchTargets false true ["abc"] [recCached] = ([recCached], 0) ∧
    recCached ∉ (processBatchTargets false false ["abc"] [recCached]).1 ∧
    (processBatchTargets false false ["abc"] [recCached]).2 = 1 := by
  refine ⟨(cache_preflight_skip false true ["abc"] [recCached]).1 rfl, ?_, ?_⟩
  · exact ((cache_preflight_skip false false ["abc"] [recCached]).2 rfl rfl).1
      recCached (by simp) (by with_unfolding_all rfl)
  · rw [((cache_preflight_skip false false ["abc"] [recCached]).2 rfl rfl).2.2]
    with_unfolding_all rfl

/-! ## Lemmas: the defensive JSON cleanup pipeline -/

lemma dropWhile_cons_neg {p : Char → Bool} {c : Char} {l : List Char}
    (h : p c = false) : (c :: l).dropWhile p = c :: l := by
  simp [List.dropWhile, h]

lemma pyStripL_eq_self (l : List Char)
    (h1 : ∀ c, l.head? = some c → isPySpace c = false)
    (h2 : ∀ c, l.getLast? = some c → isPySpace c = false) :
    pyStripL l = l := by
  unfold pyStripL
  have hd : l.dropWhile isPySpace = l := by
    cases l with
    | nil => rfl
    | cons c t => exact dropWhile_cons_neg (h1 c rfl)
  rw [hd]
  have hr : l.reverse.dropWhile isPySpace = l.reverse := by
    cases hrev : l.reverse with
    | nil => rfl
    | cons c t =>
        apply dropWhile_cons_neg
        apply h2
        rw [← List.head?_reverse, hrev]
        rfl
  rw [hr, List.reverse_reverse]

lemma stripFenceOpenL_eq_self (l : List Char)
    (h : ∀ c, l.head? = some c → c ≠ backtickChar) :
    stripFenceOpenL l = l := by
  rcases l with _ | ⟨c1, _ | ⟨c2, _ | ⟨c3, rest⟩⟩⟩
  · rfl
  · rfl
  · rfl
  · unfold stripFenceOpenL
    dsimp only
    rw [if_neg]
    intro ⟨hc1, _, _⟩
    exact h c1 rfl hc1

lemma stripFenceCloseL_eq_self (l : List Char)
    (h : ∀ c, l.getLast? = some c → c ≠ backtickChar) :
    stripFenceCloseL l = l := by
  unfold stripFenceCloseL
  rcases hrev : l.reverse with _ | ⟨c1, _ | ⟨c2, _ | ⟨c3, rest⟩⟩⟩
  · rfl
  · rfl
  · rfl
  · dsimp only
    rw [if_neg]
    intro ⟨hc1, _, _⟩
    refine h c1 ?_ hc1
    rw [← List.head?_reverse, hrev]
    rfl

lemma dropWhile_append_head_neg {p : Char → Bool} {l b : List Char} {c : Char}
    (hl : l = c :: l.tail) (hc : p c = false) :
    (l ++ b).dropWhile p = l ++ b := by
  rw [hl]
  exact dropWhile_cons_neg hc

lemma stripFenceOpenL_fenceWrap (l : List Char) (c : Char)
    (hhead : l.head? = some c) (hc : isPySpace c = false) :
    stripFenceOpenL (fenceWrap l) =
      l ++ ['\n', backtickChar, backtickChar, backtickChar] := by
  have hstep : stripFenceOpenL (fenceWrap l) =
      (l ++ ['\n', backtickChar, backtickChar, backtickChar]).dropWhile isPySpace := rfl
  rw [hstep]
  cases l with
  | nil => simp at hhead
  | cons x t =>
      simp only [List.head?] at hhead
      cases hhead
      exact dropWhile_cons_neg hc

lemma stripFenceCloseL_fenceTail (l : List Char) (c : Char)
    (hlast : l.getLast? = some c) (hc : isPySpace c = false) :
    stripFenceCloseL (l ++ ['\n', backtickChar, backtickChar, backtickChar]) = l := by
  unfold stripFenceCloseL
  have hrev : (l ++ ['\n', backtickChar, backtickChar, backtickChar]).reverse =
      backtickChar :: backtickChar :: backtickChar :: '\n' :: l.reverse := by
    simp
  rw [hrev]
  dsimp only
  rw [if_pos ⟨rfl, rfl, rfl⟩]
  rw [List.dropWhile_cons, if_pos (by decide)]
  cases hrev2 : l.reverse with
  | nil =>
      simp [hrev2]
      have := congrArg List.reverse hrev2
      simpa using this
  | cons x t =>
      have hx : x = c := by
        have := hlast
        rw [← List.head?_reverse, hrev2] at this
        simpa using this
      rw [dropWhile_cons_neg (by rw [hx]; exact hc)]
      rw [← hrev2, List.reverse_reverse]

lemma safeChar_cases {c : Char} (h : safeChar c = true) :
    c.isAlphanum = true ∨ c = ' ' := by
  simpa [safeChar] using h

lemma safe_ne {c d : Char} (h : safeChar c = true) (hd : safeChar d = false) :
    c ≠ d := by
  intro he
  rw [he, hd] at h
  cases h

lemma safeStrB_mem {s : String} (hs : safeStrB s = true) {c : Char}
    (hc : c ∈ s.data) : safeChar c = true := by
  rw [safeStrB, List.all_eq_true] at hs
  exact hs c hc

lemma safeEntry_parts {e : CatEntry} (h : safeEntry e = true) :
    safeStrB e.slug = true ∧ (∀ s ∈ e.categories, safeStrB s = true) ∧
      (∀ s ∈ e.tags, safeStrB s = true) := by
  rw [safeEntry] at h
  simp only [Bool.and_eq_true, List.all_eq_true] at h
  exact ⟨h.1.1, h.1.2, h.2⟩

lemma safeEntries_mem {es : List CatEntry} (h : safeEntries es = true) :
    ∀ e ∈ es, safeEntry e = true := by
  rw [safeEntries, List.all_eq_true] at h
  exact h

lemma safe_qnChar {c : Char} (h : safeChar c = true) : qnChar c = c := by
  rcases safeChar_cases h with h | h
  · rw [qnChar, if_neg]
    rintro (hc | hc | hc) <;> subst hc <;> exact absurd h (by decide)
  · subst h; decide

lemma safe_isWordChar {c : Char} (h : safeChar c = true) :
    isWordChar c = c.isAlphanum := by
  rcases safeChar_cases h with h | h
  · simp [isWordChar, h]
  · subst h; decide

lemma safe_nonword_space {c : Char} (h : safeChar c = true)
    (hw : isWordChar c = false) : c = ' ' := by
  rcases safeChar_cases h with h | h
  · simp [isWordChar, h] at hw
  · exact h

/-! Quote normalization as a structural map. -/

lemma quoteNormL_nil : quoteNormL [] = [] := rfl

lemma quoteNormL_cons (c : Char) (l : List Char) :
    quoteNormL (c :: l) = qnChar c :: quoteNormL l := rfl

lemma quoteNormL_append (a b : List Char) :
    quoteNormL (a ++ b) = quoteNormL a ++ quoteNormL b := List.map_append _ _ _

lemma quoteNormL_safe_id {l : List Char} (h : ∀ c ∈ l, safeChar c = true) :
    quoteNormL l = l := by
  induction l with
  | nil => rfl
  | cons c t ih =>
      rw [quoteNormL_cons, safe_qnChar (h c (by simp)),
        ih (fun x hx => h x (by simp [hx]))]

lemma qnChar_comma : qnChar ',' = ',' := by decide

lemma qnChar_space : qnChar ' ' = ' ' := by decide

lemma qnChar_lb : qnChar '[' = '[' := by decide

lemma qnChar_rb : qnChar ']' = ']' := by decide

lemma qnChar_lc : qnChar lCurly = lCurly := by decide

lemma qnChar_rc : qnChar rCurly = rCurly := by decide

lemma qnChar_colon : qnChar ':' = ':' := by decide

lemma qnChar_dq : qnChar '"' = '"' := by decide

lemma qn_renderStr (st st2 : RenderStyle) (hqo : qnChar st.qo = st2.qo)
    (hqc : qnChar st.qc = st2.qc) (s : String) (hs : safeStrB s = true) :
    quoteNormL (renderStr st s) = renderStr st2 s := by
  unfold renderStr
  rw [quoteNormL_append, quoteNormL_cons, hqo,
    quoteNormL_safe_id (fun c hc => safeStrB_mem hs hc),
    show quoteNormL [st.qc] = [qnChar st.qc] from rfl, hqc]

lemma qn_renderKey (st st2 : RenderStyle) (hqo : qnChar st.qo = st2.qo)
    (hqc : qnChar st.qc = st2.qc) (hk : st.keyQuotes = st2.keyQuotes)
    (k : String) (hks : ∀ c ∈ k.data, safeChar c = true) :
    quoteNormL (renderKey st k) = renderKey st2 k := by
  unfold renderKey
  rw [← hk]
  cases hkq : st.keyQuotes
  · rw [if_neg (by simp), if_neg (by simp)]
    exact quoteNormL_safe_id hks
  · rw [if_pos rfl, if_pos rfl, quoteNormL_append, quoteNormL_cons, hqo,
      quoteNormL_safe_id hks, show quoteNormL [st.qc] = [qnChar st.qc] from rfl,
      hqc]

lemma qn_renderItems (st st2 : RenderStyle) (hqo : qnChar st.qo = st2.qo)
    (hqc : qnChar st.qc = st2.qc) (xs : List String)
    (hxs : ∀ s ∈ xs, safeStrB s = true) :
    quoteNormL (renderItems st xs) = renderItems st2 xs := by
  induction xs with
  | nil => rfl
  | cons s rest ih =>
      cases rest with
      | nil => exact qn_renderStr st st2 hqo hqc s (hxs s (by simp))
      | cons s2 r2 =>
          show quoteNormL (renderStr st s ++ ',' :: ' ' :: renderItems st (s2 :: r2)) = _
          rw [quoteNormL_append, qn_renderStr st st2 hqo hqc s (hxs s (by simp)),
            quoteNormL_cons, quoteNormL_cons, qnChar_comma, qnChar_space,
            ih (fun x hx => hxs x (by simp [hx]))]
          rfl

lemma qn_renderList (st st2 : RenderStyle) (hqo : qnChar st.qo = st2.qo)
    (hqc : qnChar st.qc = st2.qc) (htr : st.trailingCommas = st2.trailingCommas)
    (xs : List String) (hxs : ∀ s ∈ xs, safeStrB s = true) :
    quoteNormL (renderList st xs) = renderList st2 xs := by
  unfold renderList
  rw [quoteNormL_append, quoteNormL_append, quoteNormL_cons, qnChar_lb,
    qn_renderItems st st2 hqo hqc xs hxs, htr, apply_ite quoteNormL,
    show quoteNormL [','] = [','] from by decide,
    quoteNormL_nil, show quoteNormL [']'] = [']'] from by decide]

lemma key_slug_safe : ∀ c ∈ "slug".data, safeChar c = true := by decide

lemma key_categories_safe : ∀ c ∈ "categories".data, safeChar c = true := by decide

lemma key_tags_safe : ∀ c ∈ "tags".data, safeChar c = true := by decide

lemma qn_renderEntry (st st2 : RenderStyle) (hqo : qnChar st.qo = st2.qo)
    (hqc : qnChar st.qc = st2.qc) (hk : st.keyQuotes = st2.keyQuotes)
    (htr : st.trailingCommas = st2.trailingCommas) (e : CatEntry)
    (hsafe : safeEntry e = true) :
    quoteNormL (renderEntry st e) = renderEntry st2 e := by
  obtain ⟨h1, h2, h3⟩ := safeEntry_parts hsafe
  unfold renderEntry
  simp only [quoteNormL_cons, quoteNormL_append, quoteNormL_nil,
    apply_ite quoteNormL, qnChar_comma, qnChar_space, qnChar_colon,
    qnChar_lc, qnChar_rc]
  rw [qn_renderKey st st2 hqo hqc hk "slug" key_slug_safe,
    qn_renderStr st st2 hqo hqc e.slug h1,
    qn_renderKey st st2 hqo hqc hk "categories" key_categories_safe,
    qn_renderList st st2 hqo hqc htr e.categories h2,
    qn_renderKey st st2 hqo hqc hk "tags" key_tags_safe,
    qn_renderList st st2 hqo hqc htr e.tags h3, htr]

lemma qn_renderEntriesItems (st st2 : RenderStyle) (hqo : qnChar st.qo = st2.qo)
    (hqc : qnChar st.qc = st2.qc) (hk : st.keyQuotes = st2.keyQuotes)
    (htr : st.trailingCommas = st2.trailingCommas) (es : List CatEntry)
    (hes : ∀ e ∈ es, safeEntry e = true) :
    quoteNormL (renderEntriesItems st es) = renderEntriesItems st2 es := by
  induction es with
  | nil => rfl
  | cons e rest ih =>
      cases rest with
      | nil => exact qn_renderEntry st st2 hqo hqc hk htr e (hes e (by simp))
      | cons e2 r2 =>
          show quoteNormL (renderEntry st e ++ ',' :: ' ' :: renderEntriesItems st (e2 :: r2)) = _
          rw [quoteNormL_append,
            qn_renderEntry st st2 hqo hqc hk htr e (hes e (by simp)),
            quoteNormL_cons, quoteNormL_cons, qnChar_comma, qnChar_space,
            ih (fun x hx => hes x (by simp [hx]))]
          rfl

lemma qn_renderResponse (st st2 : RenderStyle) (hqo : qnChar st.qo = st2.qo)
    (hqc : qnChar st.qc = st2.qc) (hk : st.keyQuotes = st2.keyQuotes)
    (htr : st.trailingCommas = st2.trailingCommas) (es : List CatEntry)
    (hes : safeEntries es = true) :
    quoteNormL (renderResponse st es) = renderResponse st2 es := by
  unfold renderResponse
  rw [quoteNormL_append, quoteNormL_append, quoteNormL_cons, qnChar_lb,
    qn_renderEntriesItems st st2 hqo hqc hk htr es (safeEntries_mem hes), htr,
    apply_ite quoteNormL, show quoteNormL [','] = [','] from by decide,
    quoteNormL_nil, show quoteNormL [']'] = [']'] from by decide]

/-! Trailing-comma removal as a scan. -/

lemma dropWhile_head_false {p : Char → Bool} : ∀ {l t : List Char} {c : Char},
    l.dropWhile p = c :: t → p c = false := by
  intro l
  induction l with
  | nil => intro t c h; simp [List.dropWhile] at h
  | cons a as ih =>
      intro t c h
      rw [List.dropWhile_cons] at h
      by_cases hp : p a = true
      · rw [if_pos hp] at h; exact ih h
      · rw [if_neg hp] at h
        injection h with h1 h2
        subst h1
        simpa using hp

lemma mem_of_mem_dropWhile {p : Char → Bool} {l : List Char} {c : Char}
    (h : c ∈ l.dropWhile p) : c ∈ l :=
  (List.dropWhile_sublist p).subset h

lemma rtcL_nil : rtcL [] = [] := by rw [rtcL]

lemma rtcL_cons_noncomma {c : Char} {l : List Char} (h : ¬ c = ',') :
    rtcL (c :: l) = c :: rtcL l := by
  rw [rtcL, if_neg h]

lemma rtcL_no_comma_append {a : List Char} (h : ∀ c ∈ a, ¬ c = ',')
    (b : List Char) : rtcL (a ++ b) = a ++ rtcL b := by
  induction a with
  | nil => rfl
  | cons c t ih =>
      rw [List.cons_append, rtcL_cons_noncomma (h c (by simp)),
        ih (fun x hx => h x (by simp [hx]))]
      rfl

lemma rtcL_sep {x : Char} {t : List Char} (hx1 : isPySpace x = false)
    (hx2 : ¬ x = ']') (hx3 : ¬ x = rCurly) :
    rtcL (',' :: ' ' :: x :: t) = ',' :: ' ' :: rtcL (x :: t) := by
  have hd : (' ' :: x :: t).dropWhile isPySpace = x :: t := by
    rw [List.dropWhile_cons, if_pos (by decide), List.dropWhile_cons,
      if_neg (by simp [hx1])]
  rw [rtcL, if_pos rfl]
  split
  next b tail heq =>
    rw [hd] at heq
    injection heq with h1 h2
    subst h1; subst h2
    rw [if_neg (by rintro (hh | hh); exacts [hx2 hh, hx3 hh]),
      rtcL_cons_noncomma (show ¬ ' ' = ',' by decide)]
  next heq =>
    rw [hd] at heq
    cases heq

lemma rtcL_sep_append {l : List Char}
    (hl : ∃ d u, l = d :: u ∧ isPySpace d = false ∧ ¬ d = ']' ∧ ¬ d = rCurly) :
    rtcL (',' :: ' ' :: l) = ',' :: ' ' :: rtcL l := by
  obtain ⟨d, u, hdu, h1, h2, h3⟩ := hl
  rw [hdu]
  exact rtcL_sep h1 h2 h3

lemma rtcL_trailclose {b : Char} (hb : b = ']' ∨ b = rCurly) (t : List Char) :
    rtcL (',' :: b :: t) = b :: rtcL t := by
  have hbs : isPySpace b = false := by rcases hb with h | h <;> subst h <;> decide
  have hd : (b :: t).dropWhile isPySpace = b :: t := dropWhile_cons_neg hbs
  rw [rtcL, if_pos rfl]
  split
  next b0 tail heq =>
    rw [hd] at heq
    injection heq with h1 h2
    subst h1; subst h2
    rw [if_pos hb, List.takeWhile_cons, if_neg (by simp [hbs])]
    rfl
  next heq =>
    rw [hd] at heq
    cases heq

/-! Style congruences and head/charset facts about the renders. -/

lemma renderStr_congr (st st2 : RenderStyle) (hqo : st.qo = st2.qo)
    (hqc : st.qc = st2.qc) (s : String) : renderStr st s = renderStr st2 s := by
  unfold renderStr
  rw [hqo, hqc]

lemma renderKey_congr (st st2 : RenderStyle) (hqo : st.qo = st2.qo)
    (hqc : st.qc = st2.qc) (hkq : st.keyQuotes = st2.keyQuotes) (k : String) :
    renderKey st k = renderKey st2 k := by
  unfold renderKey
  rw [hkq, hqo, hqc]

lemma renderItems_congr (st st2 : RenderStyle) (hqo : st.qo = st2.qo)
    (hqc : st.qc = st2.qc) (xs : List String) :
    renderItems st xs = renderItems st2 xs := by
  induction xs with
  | nil => rfl
  | cons s rest ih =>
      cases rest with
      | nil => exact renderStr_congr st st2 hqo hqc s
      | cons s2 r2 =>
          show renderStr st s ++ (',' :: ' ' :: renderItems st (s2 :: r2)) = _
          rw [renderStr_congr st st2 hqo hqc s, ih]
          rfl

lemma renderItems_cons_head (st : RenderStyle) (s : String) (rest : List String) :
    ∃ t, renderItems st (s :: rest) = st.qo :: t := by
  cases rest with
  | nil => exact ⟨s.data ++ [st.qc], rfl⟩
  | cons s2 r2 => exact ⟨_, rfl⟩

lemma renderStr_no_comma (st : RenderStyle) (hqo : st.qo = '"')
    (hqc : st.qc = '"') (s : String) (hs : safeStrB s = true) :
    ∀ c ∈ renderStr st s, ¬ c = ',' := by
  intro c hc he
  subst he
  unfold renderStr at hc
  rcases List.mem_append.mp hc with hc | hc
  · rcases List.mem_cons.mp hc with hc | hc
    · rw [← hc] at hqo; exact absurd hqo (by decide)
    · exact absurd (safeStrB_mem hs hc) (by decide)
  · rw [← List.mem_singleton.mp hc] at hqc; exact absurd hqc (by decide)

lemma renderKey_no_comma (st : RenderStyle) (hqo : st.qo = '"')
    (hqc : st.qc = '"') (k : String) (hk : ∀ c ∈ k.data, safeChar c = true) :
    ∀ c ∈ renderKey st k, ¬ c = ',' := by
  intro c hc he
  subst he
  unfold renderKey at hc
  split at hc
  · rcases List.mem_append.mp hc with hc | hc
    · rcases List.mem_cons.mp hc with hc | hc
      · rw [← hc] at hqo; exact absurd hqo (by decide)
      · exact absurd (hk _ hc) (by decide)
    · rw [← List.mem_singleton.mp hc] at hqc; exact absurd hqc (by decide)
  · exact absurd (hk _ hc) (by decide)

lemma renderKey_head_lit (st : RenderStyle) (hqo : st.qo = '"') (k : String)
    (hk : k = "slug" ∨ k = "categories" ∨ k = "tags") :
    ∃ d u, renderKey st k = d :: u ∧ isPySpace d = false ∧ ¬ d = ']' ∧
      ¬ d = rCurly := by
  unfold renderKey
  split
  · exact ⟨st.qo, k.data ++ [st.qc], rfl, by rw [hqo]; decide, by rw [hqo]; decide,
      by rw [hqo]; decide⟩
  · rcases hk with h | h | h <;> subst h
    · exact ⟨'s', "lug".data, by decide, by decide, by decide, by decide⟩
    · exact ⟨'c', "ategories".data, by decide, by decide, by decide, by decide⟩
    · exact ⟨'t', "ags".data, by decide, by decide, by decide, by decide⟩

lemma head_append {l b : List Char} {d : Char} {u : List Char}
    (h : l = d :: u) : l ++ b = d :: (u ++ b) := by
  rw [h]
  rfl

/-! The trailing-comma pass on the rendered family. -/

lemma rtcL_items (st : RenderStyle) (hqo : st.qo = '"') (hqc : st.qc = '"')
    (xs : List String) (hxs : ∀ s ∈ xs, safeStrB s = true) :
    ∀ b, rtcL (renderItems st xs ++ b) = renderItems st xs ++ rtcL b := by
  induction xs with
  | nil => intro b; rfl
  | cons s rest ih =>
      intro b
      cases rest with
      | nil =>
          exact rtcL_no_comma_append
            (renderStr_no_comma st hqo hqc s (hxs s (by simp))) b
      | cons s2 r2 =>
          show rtcL ((renderStr st s ++ (',' :: ' ' :: renderItems st (s2 :: r2))) ++ b) = _
          rw [List.append_assoc,
            rtcL_no_comma_append (renderStr_no_comma st hqo hqc s (hxs s (by simp))),
            show (',' :: ' ' :: renderItems st (s2 :: r2)) ++ b =
              ',' :: ' ' :: (renderItems st (s2 :: r2) ++ b) from rfl]
          obtain ⟨t0, ht0⟩ := renderItems_cons_head st s2 r2
          rw [rtcL_sep_append ⟨st.qo, t0 ++ b, head_append ht0,
            by rw [hqo]; decide, by rw [hqo]; decide, by rw [hqo]; decide⟩,
            ih (fun x hx => hxs x (by simp [hx])) b]
          show _ = (renderStr st s ++ (',' :: ' ' :: renderItems st (s2 :: r2))) ++ rtcL b
          simp [List.append_assoc]

lemma rtcL_list_plain (st : RenderStyle) (hqo : st.qo = '"') (hqc : st.qc = '"')
    (htr : st.trailingCommas = false) (xs : List String)
    (hxs : ∀ s ∈ xs, safeStrB s = true) (b : List Char) :
    rtcL (renderList st xs ++ b) = renderList st xs ++ rtcL b := by
  unfold renderList
  rw [htr, if_neg (by simp)]
  simp only [List.append_nil]
  rw [show ('[' :: renderItems st xs ++ [']']) ++ b =
        '[' :: (renderItems st xs ++ (']' :: b)) from by simp,
    rtcL_cons_noncomma (by decide), rtcL_items st hqo hqc xs hxs (']' :: b),
    rtcL_cons_noncomma (by decide)]
  simp

lemma rtcL_list_trail (xs : List String) (hxs : ∀ s ∈ xs, safeStrB s = true)
    (b : List Char) :
    rtcL (renderList trailingStyle xs ++ b) = renderList cleanStyle xs ++ rtcL b := by
  cases xs with
  | nil =>
      rw [show renderList trailingStyle ([] : List String) = ['[', ']'] from by decide,
        show renderList cleanStyle ([] : List String) = ['[', ']'] from by decide]
      exact rtcL_no_comma_append (by decide) b
  | cons s rest =>
      unfold renderList
      rw [if_pos ⟨rfl, by simp⟩, if_neg (by simp [cleanStyle])]
      simp only [List.append_nil]
      rw [show ('[' :: renderItems trailingStyle (s :: rest) ++ [','] ++ [']']) ++ b =
            '[' :: (renderItems trailingStyle (s :: rest) ++ (',' :: ']' :: b)) from by simp,
        rtcL_cons_noncomma (by decide),
        rtcL_items trailingStyle rfl rfl (s :: rest) hxs (',' :: ']' :: b),
        rtcL_trailclose (Or.inl rfl),
        renderItems_congr trailingStyle cleanStyle rfl rfl (s :: rest)]
      simp

lemma rtcL_sep_key (st : RenderStyle) (hqo : st.qo = '"') (k : String)
    (hk : k = "slug" ∨ k = "categories" ∨ k = "tags") (rest : List Char) :
    rtcL (',' :: ' ' :: (renderKey st k ++ rest)) =
      ',' :: ' ' :: rtcL (renderKey st k ++ rest) := by
  obtain ⟨d, u, hdu, hd1, hd2, hd3⟩ := renderKey_head_lit st hqo k hk
  exact rtcL_sep_append ⟨d, u ++ rest, head_append hdu, hd1, hd2, hd3⟩

lemma rtcL_entry_plain (st : RenderStyle) (hqo : st.qo = '"') (hqc : st.qc = '"')
    (htr : st.trailingCommas = false) (e : CatEntry) (hsafe : safeEntry e = true)
    (b : List Char) :
    rtcL (renderEntry st e ++ b) = renderEntry st e ++ rtcL b := by
  obtain ⟨h1, h2, h3⟩ := safeEntry_parts hsafe
  unfold renderEntry
  rw [htr]
  simp only [Bool.false_eq_true, if_false, List.append_assoc, List.cons_append,
    List.nil_append, List.append_nil]
  rw [rtcL_cons_noncomma (show ¬ lCurly = ',' by decide),
    rtcL_no_comma_append (renderKey_no_comma st hqo hqc "slug" key_slug_safe),
    rtcL_cons_noncomma (show ¬ ':' = ',' by decide),
    rtcL_cons_noncomma (show ¬ ' ' = ',' by decide),
    rtcL_no_comma_append (renderStr_no_comma st hqo hqc e.slug h1),
    rtcL_sep_key st hqo "categories" (Or.inr (Or.inl rfl)),
    rtcL_no_comma_append (renderKey_no_comma st hqo hqc "categories" key_categories_safe),
    rtcL_cons_noncomma (show ¬ ':' = ',' by decide),
    rtcL_cons_noncomma (show ¬ ' ' = ',' by decide),
    rtcL_list_plain st hqo hqc htr e.categories h2,
    rtcL_sep_key st hqo "tags" (Or.inr (Or.inr rfl)),
    rtcL_no_comma_append (renderKey_no_comma st hqo hqc "tags" key_tags_safe),
    rtcL_cons_noncomma (show ¬ ':' = ',' by decide),
    rtcL_cons_noncomma (show ¬ ' ' = ',' by decide),
    rtcL_list_plain st hqo hqc htr e.tags h3,
    rtcL_cons_noncomma (show ¬ rCurly = ',' by decide)]

lemma rtcL_entry_trail (e : CatEntry) (hsafe : safeEntry e = true)
    (b : List Char) :
    rtcL (renderEntry trailingStyle e ++ b) = renderEntry cleanStyle e ++ rtcL b := by
  obtain ⟨h1, h2, h3⟩ := safeEntry_parts hsafe
  unfold renderEntry
  rw [if_pos (show trailingStyle.trailingCommas = true from rfl),
    if_neg (by simp [cleanStyle])]
  simp only [List.append_assoc, List.cons_append, List.nil_append, List.append_nil]
  rw [rtcL_cons_noncomma (show ¬ lCurly = ',' by decide),
    rtcL_no_comma_append (renderKey_no_comma trailingStyle rfl rfl "slug" key_slug_safe),
    rtcL_cons_noncomma (show ¬ ':' = ',' by decide),
    rtcL_cons_noncomma (show ¬ ' ' = ',' by decide),
    rtcL_no_comma_append (renderStr_no_comma trailingStyle rfl rfl e.slug h1),
    rtcL_sep_key trailingStyle rfl "categories" (Or.inr (Or.inl rfl)),
    rtcL_no_comma_append (renderKey_no_comma trailingStyle rfl rfl "categories" key_categories_safe),
    rtcL_cons_noncomma (show ¬ ':' = ',' by decide),
    rtcL_cons_noncomma (show ¬ ' ' = ',' by decide),
    rtcL_list_trail e.categories h2,
    rtcL_sep_key trailingStyle rfl "tags" (Or.inr (Or.inr rfl)),
    rtcL_no_comma_append (renderKey_no_comma trailingStyle rfl rfl "tags" key_tags_safe),
    rtcL_cons_noncomma (show ¬ ':' = ',' by decide),
    rtcL_cons_noncomma (show ¬ ' ' = ',' by decide),
    rtcL_list_trail e.tags h3,
    rtcL_trailclose (Or.inr rfl),
    renderKey_congr trailingStyle cleanStyle rfl rfl rfl "slug",
    renderKey_congr trailingStyle cleanStyle rfl rfl rfl "categories",
    renderKey_congr trailingStyle cleanStyle rfl rfl rfl "tags",
    renderStr_congr trailingStyle cleanStyle rfl rfl e.slug]

lemma renderEntriesItems_cons_head (st : RenderStyle) (e : CatEntry)
    (rest : List CatEntry) :
    ∃ t, renderEntriesItems st (e :: rest) = lCurly :: t := by
  cases rest with
  | nil => exact ⟨_, rfl⟩
  | cons e2 r2 => exact ⟨_, rfl⟩

lemma rtcL_entries_plain (st : RenderStyle) (hqo : st.qo = '"')
    (hqc : st.qc = '"') (htr : st.trailingCommas = false) (es : List CatEntry)
    (hes : ∀ e ∈ es, safeEntry e = true) :
    ∀ b, rtcL (renderEntriesItems st es ++ b) =
      renderEntriesItems st es ++ rtcL b := by
  induction es with
  | nil => intro b; rfl
  | cons e rest ih =>
      intro b
      cases rest with
      | nil => exact rtcL_entry_plain st hqo hqc htr e (hes e (by simp)) b
      | cons e2 r2 =>
          show rtcL ((renderEntry st e ++ (',' :: ' ' :: renderEntriesItems st (e2 :: r2))) ++ b) = _
          rw [List.append_assoc, rtcL_entry_plain st hqo hqc htr e (hes e (by simp)),
            show (',' :: ' ' :: renderEntriesItems st (e2 :: r2)) ++ b =
              ',' :: ' ' :: (renderEntriesItems st (e2 :: r2) ++ b) from rfl]
          obtain ⟨t0, ht0⟩ := renderEntriesItems_cons_head st e2 r2
          rw [rtcL_sep_append ⟨lCurly, t0 ++ b, head_append ht0, by decide,
              by decide, by decide⟩,
            ih (fun x hx => hes x (by simp [hx])) b]
          show _ = (renderEntry st e ++ (',' :: ' ' :: renderEntriesItems st (e2 :: r2))) ++ rtcL b
          simp [List.append_assoc]

lemma rtcL_entries_trail (es : List CatEntry)
    (hes : ∀ e ∈ es, safeEntry e = true) :
    ∀ b, rtcL (renderEntriesItems trailingStyle es ++ b) =
      renderEntriesItems cleanStyle es ++ rtcL b := by
  induction es with
  | nil => intro b; rfl
  | cons e rest ih =>
      intro b
      cases rest with
      | nil => exact rtcL_entry_trail e (hes e (by simp)) b
      | cons e2 r2 =>
          show rtcL ((renderEntry trailingStyle e ++ (',' :: ' ' :: renderEntriesItems trailingStyle (e2 :: r2))) ++ b) = _
          rw [List.append_assoc, rtcL_entry_trail e (hes e (by simp)),
            show (',' :: ' ' :: renderEntriesItems trailingStyle (e2 :: r2)) ++ b =
              ',' :: ' ' :: (renderEntriesItems trailingStyle (e2 :: r2) ++ b) from rfl]
          obtain ⟨t0, ht0⟩ := renderEntriesItems_cons_head trailingStyle e2 r2
          rw [rtcL_sep_append ⟨lCurly, t0 ++ b, head_append ht0, by decide,
              by decide, by decide⟩,
            ih (fun x hx => hes x (by simp [hx])) b]
          show _ = (renderEntry cleanStyle e ++ (',' :: ' ' :: renderEntriesItems cleanStyle (e2 :: r2))) ++ rtcL b
          simp [List.append_assoc]

lemma rtcL_response_plain (st : RenderStyle) (hqo : st.qo = '"')
    (hqc : st.qc = '"') (htr : st.trailingCommas = false) (es : List CatEntry)
    (hes : safeEntries es = true) :
    rtcL (renderResponse st es) = renderResponse st es := by
  unfold renderResponse
  rw [htr, if_neg (by simp)]
  simp only [List.append_nil]
  rw [show ('[' :: renderEntriesItems st es ++ [']']) =
        '[' :: (renderEntriesItems st es ++ (']' :: ([] : List Char))) from by simp,
    rtcL_cons_noncomma (show ¬ '[' = ',' by decide),
    rtcL_entries_plain st hqo hqc htr es (safeEntries_mem hes) (']' :: []),
    rtcL_cons_noncomma (show ¬ ']' = ',' by decide), rtcL_nil]

lemma rtcL_response_trail (es : List CatEntry) (hes : safeEntries es = true) :
    rtcL (renderResponse trailingStyle es) = renderResponse cleanStyle es := by
  cases es with
  | nil =>
      rw [show renderResponse trailingStyle ([] : List CatEntry) = ['[', ']'] from by decide,
        show renderResponse cleanStyle ([] : List CatEntry) = ['[', ']'] from by decide]
      have := rtcL_no_comma_append (a := ['[', ']']) (by decide) []
      simpa [rtcL_nil] using this
  | cons e rest =>
      unfold renderResponse
      rw [if_pos ⟨rfl, by simp⟩, if_neg (by simp [cleanStyle])]
      simp only [List.append_nil]
      rw [show ('[' :: renderEntriesItems trailingStyle (e :: rest) ++ [','] ++ [']']) =
            '[' :: (renderEntriesItems trailingStyle (e :: rest) ++ (',' :: ']' :: ([] : List Char))) from by simp,
        rtcL_cons_noncomma (show ¬ '[' = ',' by decide),
        rtcL_entries_trail (e :: rest) (safeEntries_mem hes) (',' :: ']' :: []),
        rtcL_trailclose (Or.inl rfl), rtcL_nil]
      simp

/-! The bare-key-quoting pass as a scan. -/

lemma qkL_nil : qkL [] = [] := by rw [qkL]

lemma qkL_cons_nonword {c : Char} {l : List Char} (h : isWordChar c = false) :
    qkL (c :: l) = c :: qkL l := by
  rw [qkL, if_neg (by simp [h])]

lemma qkL_word_colon (c : Char) (w rest : List Char) (hc : isWordChar c = true)
    (hw : ∀ x ∈ w, isWordChar x = true) :
    qkL ((c :: w) ++ ':' :: rest) = '"' :: (c :: w) ++ '"' :: ':' :: qkL rest := by
  have hwnil : w.dropWhile isWordChar = [] := List.dropWhile_eq_nil_iff.mpr hw
  have hde : (w ++ ':' :: rest).dropWhile isWordChar = ':' :: rest := by
    rw [List.dropWhile_append, hwnil,
      if_pos (show ([] : List Char).isEmpty = true from rfl),
      List.dropWhile_cons, if_neg (by decide)]
  have htw : w.takeWhile isWordChar = w := by
    have h0 := List.takeWhile_append_dropWhile isWordChar w
    rw [hwnil, List.append_nil] at h0
    exact h0
  have hte : (w ++ ':' :: rest).takeWhile isWordChar = w := by
    rw [List.takeWhile_append, if_pos (by rw [htw]), List.takeWhile_cons,
      if_neg (by decide)]
    simp
  rw [List.cons_append, qkL, if_pos (by simp [hc])]
  split
  next tail heq =>
    rw [hde] at heq
    injection heq with h1 h2
    subst h2
    rw [hte]
  next hne =>
    exact (hne rest hde).elim

lemma qkL_safe_chunk : ∀ (n : Nat) (l rest : List Char), l.length ≤ n →
    (∀ c ∈ l, safeChar c = true) →
    qkL (l ++ '"' :: rest) = l ++ '"' :: qkL rest := by
  intro n
  induction n with
  | zero =>
      intro l rest hlen hsafe
      have hnil : l = [] := List.eq_nil_of_length_eq_zero (Nat.le_zero.mp hlen)
      subst hnil
      rw [List.nil_append, qkL_cons_nonword (by decide)]
      rfl
  | succ n ih =>
      intro l rest hlen hsafe
      cases l with
      | nil => rw [List.nil_append, qkL_cons_nonword (by decide)]; rfl
      | cons c l2 =>
          have hl2 : l2.length ≤ n := by
            simp only [List.length_cons] at hlen
            omega
          by_cases hw : isWordChar c = true
          · rcases hdw : l2.dropWhile isWordChar with _ | ⟨d, dtail⟩
            · -- every char of l2 is a word char; the run stops at the quote
              have hde : (l2 ++ '"' :: rest).dropWhile isWordChar = '"' :: rest := by
                rw [List.dropWhile_append, hdw,
                  if_pos (show ([] : List Char).isEmpty = true from rfl),
                  List.dropWhile_cons, if_neg (by decide)]
              have htw : l2.takeWhile isWordChar = l2 := by
                have h0 := List.takeWhile_append_dropWhile isWordChar l2
                rw [hdw, List.append_nil] at h0
                exact h0
              have hte : (l2 ++ '"' :: rest).takeWhile isWordChar = l2 := by
                rw [List.takeWhile_append, if_pos (by rw [htw]),
                  List.takeWhile_cons, if_neg (by decide)]
                simp
              rw [List.cons_append, qkL, if_pos (by simp [hw])]
              split
              next tail heq =>
                rw [hde] at heq
                simp at heq
              next hne =>
                rw [hde, hte, qkL_cons_nonword (by decide)]
            · -- the word run stops inside l2, at a safe non-word char (a space)
              have hdmem : d ∈ l2 :=
                mem_of_mem_dropWhile (by rw [hdw]; exact List.mem_cons_self d dtail)
              have hds : safeChar d = true := hsafe d (by simp [hdmem])
              have hdnw : isWordChar d = false := dropWhile_head_false hdw
              have hdsp : d = ' ' := safe_nonword_space hds hdnw
              have hde : (l2 ++ '"' :: rest).dropWhile isWordChar =
                  d :: (dtail ++ '"' :: rest) := by
                rw [List.dropWhile_append, hdw, if_neg (by simp)]
                rfl
              have hte : (l2 ++ '"' :: rest).takeWhile isWordChar =
                  l2.takeWhile isWordChar := by
                rw [List.takeWhile_append, if_neg]
                intro hlen2
                have h0 := List.takeWhile_append_dropWhile isWordChar l2
                have hlen3 := congrArg List.length h0
                rw [hdw] at hlen3
                simp only [List.length_append, List.length_cons] at hlen3
                omega
              have hlt : dtail.length ≤ n := by
                have hsub := lengthDropWhileLe isWordChar l2
                rw [hdw] at hsub
                simp only [List.length_cons] at hsub
                omega
              rw [List.cons_append, qkL, if_pos (by simp [hw])]
              split
              next tail heq =>
                rw [hde, hdsp] at heq
                simp at heq
              next hne =>
                rw [hde, hte, qkL_cons_nonword hdnw,
                  ih dtail rest hlt (fun x hx => hsafe x
                    (by simp [mem_of_mem_dropWhile
                      (show x ∈ l2.dropWhile isWordChar from by
                        rw [hdw]; exact List.mem_cons_of_mem d hx)]))]
                have hsplit := List.takeWhile_append_dropWhile isWordChar l2
                rw [hdw] at hsplit
                show (c :: List.takeWhile isWordChar l2) ++
                    (d :: (dtail ++ '"' :: qkL rest)) = (c :: l2) ++ '"' :: qkL rest
                conv_rhs => rw [show (c :: l2) ++ '"' :: qkL rest =
                      c :: (l2 ++ '"' :: qkL rest) from rfl, ← hsplit]
                simp [List.append_assoc]
          · have hw2 : isWordChar c = false := by simpa using hw
            rw [List.cons_append, qkL_cons_nonword hw2,
              ih l2 rest hl2 (fun x hx => hsafe x (by simp [hx]))]
            rfl

lemma renderList_congr (st st2 : RenderStyle) (hqo : st.qo = st2.qo)
    (hqc : st.qc = st2.qc) (htr : st.trailingCommas = st2.trailingCommas)
    (xs : List String) : renderList st xs = renderList st2 xs := by
  unfold renderList
  rw [renderItems_congr st st2 hqo hqc, htr]

lemma qkL_str_chunk (st : RenderStyle) (hqo : st.qo = '"') (hqc : st.qc = '"')
    (s : String) (hs : safeStrB s = true) (b : List Char) :
    qkL (renderStr st s ++ b) = renderStr st s ++ qkL b := by
  unfold renderStr
  rw [hqo, hqc,
    show (('"' :: s.data) ++ ['"']) ++ b = '"' :: (s.data ++ ('"' :: b)) from by simp,
    qkL_cons_nonword (by decide),
    qkL_safe_chunk s.data.length s.data b (le_refl _) (fun c hc => safeStrB_mem hs hc)]
  simp

lemma qkL_key_quoted (st : RenderStyle) (hqo : st.qo = '"') (hqc : st.qc = '"')
    (hkq : st.keyQuotes = true) (k : String)
    (hks : ∀ c ∈ k.data, safeChar c = true) (b : List Char) :
    qkL (renderKey st k ++ b) = renderKey st k ++ qkL b := by
  unfold renderKey
  rw [hkq, if_pos rfl, hqo, hqc,
    show (('"' :: k.data) ++ ['"']) ++ b = '"' :: (k.data ++ ('"' :: b)) from by simp,
    qkL_cons_nonword (by decide),
    qkL_safe_chunk k.data.length k.data b (le_refl _) hks]
  simp

lemma qkL_bare_key_colon (k : String)
    (hk : k = "slug" ∨ k = "categories" ∨ k = "tags") (rest : List Char) :
    qkL (renderKey bareKeyStyle k ++ ':' :: rest) =
      renderKey cleanStyle k ++ ':' :: qkL rest := by
  have hbare : renderKey bareKeyStyle k = k.data := by
    unfold renderKey
    rw [if_neg (by simp [bareKeyStyle])]
  have hclean : renderKey cleanStyle k = '"' :: k.data ++ ['"'] := by
    unfold renderKey
    rw [if_pos (show cleanStyle.keyQuotes = true from rfl),
      show cleanStyle.qo = '"' from rfl, show cleanStyle.qc = '"' from rfl]
  rw [hbare, hclean]
  rcases hk with h | h | h <;> subst h
  · have h0 := qkL_word_colon 's' "lug".data rest (by decide) (by decide)
    simpa using h0
  · have h0 := qkL_word_colon 'c' "ategories".data rest (by decide) (by decide)
    simpa using h0
  · have h0 := qkL_word_colon 't' "ags".data rest (by decide) (by decide)
    simpa using h0

lemma qkL_items (st : RenderStyle) (hqo : st.qo = '"') (hqc : st.qc = '"')
    (xs : List String) (hxs : ∀ s ∈ xs, safeStrB s = true) :
    ∀ b, qkL (renderItems st xs ++ b) = renderItems st xs ++ qkL b := by
  induction xs with
  | nil => intro b; rfl
  | cons s rest ih =>
      intro b
      cases rest with
      | nil => exact qkL_str_chunk st hqo hqc s (hxs s (by simp)) b
      | cons s2 r2 =>
          show qkL ((renderStr st s ++ (',' :: ' ' :: renderItems st (s2 :: r2))) ++ b) = _
          rw [List.append_assoc, qkL_str_chunk st hqo hqc s (hxs s (by simp)),
            show (',' :: ' ' :: renderItems st (s2 :: r2)) ++ b =
              ',' :: ' ' :: (renderItems st (s2 :: r2) ++ b) from rfl,
            qkL_cons_nonword (show isWordChar ',' = false by decide),
            qkL_cons_nonword (show isWordChar ' ' = false by decide),
            ih (fun x hx => hxs x (by simp [hx])) b]
          show _ = (renderStr st s ++ (',' :: ' ' :: renderItems st (s2 :: r2))) ++ qkL b
          simp [List.append_assoc]

lemma qkL_list (st : RenderStyle) (hqo : st.qo = '"') (hqc : st.qc = '"')
    (htr : st.trailingCommas = false) (xs : List String)
    (hxs : ∀ s ∈ xs, safeStrB s = true) (b : List Char) :
    qkL (renderList st xs ++ b) = renderList st xs ++ qkL b := by
  unfold renderList
  rw [htr, if_neg (by simp)]
  simp only [List.append_nil]
  rw [show ('[' :: renderItems st xs ++ [']']) ++ b =
        '[' :: (renderItems st xs ++ (']' :: b)) from by simp,
    qkL_cons_nonword (show isWordChar '[' = false by decide),
    qkL_items st hqo hqc xs hxs (']' :: b),
    qkL_cons_nonword (show isWordChar ']' = false by decide)]
  simp

lemma qkL_entry_clean (e : CatEntry) (hsafe : safeEntry e = true)
    (b : List Char) :
    qkL (renderEntry cleanStyle e ++ b) = renderEntry cleanStyle e ++ qkL b := by
  obtain ⟨h1, h2, h3⟩ := safeEntry_parts hsafe
  unfold renderEntry
  rw [if_neg (by simp [cleanStyle])]
  simp only [List.append_assoc, List.cons_append, List.nil_append, List.append_nil]
  rw [qkL_cons_nonword (show isWordChar lCurly = false by decide),
    qkL_key_quoted cleanStyle rfl rfl rfl "slug" key_slug_safe,
    qkL_cons_nonword (show isWordChar ':' = false by decide),
    qkL_cons_nonword (show isWordChar ' ' = false by decide),
    qkL_str_chunk cleanStyle rfl rfl e.slug h1,
    qkL_cons_nonword (show isWordChar ',' = false by decide),
    qkL_cons_nonword (show isWordChar ' ' = false by decide),
    qkL_key_quoted cleanStyle rfl rfl rfl "categories" key_categories_safe,
    qkL_cons_nonword (show isWordChar ':' = false by decide),
    qkL_cons_nonword (show isWordChar ' ' = false by decide),
    qkL_list cleanStyle rfl rfl rfl e.categories h2,
    qkL_cons_nonword (show isWordChar ',' = false by decide),
    qkL_cons_nonword (show isWordChar ' ' = false by decide),
    qkL_key_quoted cleanStyle rfl rfl rfl "tags" key_tags_safe,
    qkL_cons_nonword (show isWordChar ':' = false by decide),
    qkL_cons_nonword (show isWordChar ' ' = false by decide),
    qkL_list cleanStyle rfl rfl rfl e.tags h3,
    qkL_cons_nonword (show isWordChar rCurly = false by decide)]

lemma qkL_entry_bare (e : CatEntry) (hsafe : safeEntry e = true)
    (b : List Char) :
    qkL (renderEntry bareKeyStyle e ++ b) = renderEntry cleanStyle e ++ qkL b := by
  obtain ⟨h1, h2, h3⟩ := safeEntry_parts hsafe
  unfold renderEntry
  rw [if_neg (by simp [bareKeyStyle]), if_neg (by simp [cleanStyle])]
  simp only [List.append_assoc, List.cons_append, List.nil_append, List.append_nil]
  rw [qkL_cons_nonword (show isWordChar lCurly = false by decide),
    show renderKey bareKeyStyle "slug" ++ ':' :: ' ' ::
        (renderStr bareKeyStyle e.slug ++ (',' :: ' ' ::
          (renderKey bareKeyStyle "categories" ++ ':' :: ' ' ::
            (renderList bareKeyStyle e.categories ++ (',' :: ' ' ::
              (renderKey bareKeyStyle "tags" ++ ':' :: ' ' ::
                (renderList bareKeyStyle e.tags ++ rCurly :: b))))))) =
      renderKey bareKeyStyle "slug" ++ ':' ::
        (' ' :: (renderStr bareKeyStyle e.slug ++ (',' :: ' ' ::
          (renderKey bareKeyStyle "categories" ++ ':' ::
            (' ' :: (renderList bareKeyStyle e.categories ++ (',' :: ' ' ::
              (renderKey bareKeyStyle "tags" ++ ':' ::
                (' ' :: (renderList bareKeyStyle e.tags ++ rCurly :: b)))))))))) from rfl,
    qkL_bare_key_colon "slug" (Or.inl rfl),
    qkL_cons_nonword (show isWordChar ' ' = false by decide),
    qkL_str_chunk bareKeyStyle rfl rfl e.slug h1,
    qkL_cons_nonword (show isWordChar ',' = false by decide),
    qkL_cons_nonword (show isWordChar ' ' = false by decide),
    qkL_bare_key_colon "categories" (Or.inr (Or.inl rfl)),
    qkL_cons_nonword (show isWordChar ' ' = false by decide),
    qkL_list bareKeyStyle rfl rfl rfl e.categories h2,
    qkL_cons_nonword (show isWordChar ',' = false by decide),
    qkL_cons_nonword (show isWordChar ' ' = false by decide),
    qkL_bare_key_colon "tags" (Or.inr (Or.inr rfl)),
    qkL_cons_nonword (show isWordChar ' ' = false by decide),
    qkL_list bareKeyStyle rfl rfl rfl e.tags h3,
    qkL_cons_nonword (show isWordChar rCurly = false by decide),
    renderStr_congr bareKeyStyle cleanStyle rfl rfl e.slug,
    renderList_congr bareKeyStyle cleanStyle rfl rfl rfl e.categories,
    renderList_congr bareKeyStyle cleanStyle rfl rfl rfl e.tags]

lemma qkL_entries_clean (es : List CatEntry)
    (hes : ∀ e ∈ es, safeEntry e = true) :
    ∀ b, qkL (renderEntriesItems cleanStyle es ++ b) =
      renderEntriesItems cleanStyle es ++ qkL b := by
  induction es with
  | nil => intro b; rfl
  | cons e rest ih =>
      intro b
      cases rest with
      | nil => exact qkL_entry_clean e (hes e (by simp)) b
      | cons e2 r2 =>
          show qkL ((renderEntry cleanStyle e ++ (',' :: ' ' :: renderEntriesItems cleanStyle (e2 :: r2))) ++ b) = _
          rw [List.append_assoc, qkL_entry_clean e (hes e (by simp)),
            show (',' :: ' ' :: renderEntriesItems cleanStyle (e2 :: r2)) ++ b =
              ',' :: ' ' :: (renderEntriesItems cleanStyle (e2 :: r2) ++ b) from rfl,
            qkL_cons_nonword (show isWordChar ',' = false by decide),
            qkL_cons_nonword (show isWordChar ' ' = false by decide),
            ih (fun x hx => hes x (by simp [hx])) b]
          show _ = (renderEntry cleanStyle e ++ (',' :: ' ' :: renderEntriesItems cleanStyle (e2 :: r2))) ++ qkL b
          simp [List.append_assoc]

lemma qkL_entries_bare (es : List CatEntry)
    (hes : ∀ e ∈ es, safeEntry e = true) :
    ∀ b, qkL (renderEntriesItems bareKeyStyle es ++ b) =
      renderEntriesItems cleanStyle es ++ qkL b := by
  induction es with
  | nil => intro b; rfl
  | cons e rest ih =>
      intro b
      cases rest with
      | nil => exact qkL_entry_bare e (hes e (by simp)) b
      | cons e2 r2 =>
          show qkL ((renderEntry bareKeyStyle e ++ (',' :: ' ' :: renderEntriesItems bareKeyStyle (e2 :: r2))) ++ b) = _
          rw [List.append_assoc, qkL_entry_bare e (hes e (by simp)),
            show (',' :: ' ' :: renderEntriesItems bareKeyStyle (e2 :: r2)) ++ b =
              ',' :: ' ' :: (renderEntriesItems bareKeyStyle (e2 :: r2) ++ b) from rfl,
            qkL_cons_nonword (show isWordChar ',' = false by decide),
            qkL_cons_nonword (show isWordChar ' ' = false by decide),
            ih (fun x hx => hes x (by simp [hx])) b]
          show _ = (renderEntry cleanStyle e ++ (',' :: ' ' :: renderEntriesItems cleanStyle (e2 :: r2))) ++ qkL b
          simp [List.append_assoc]

lemma qkL_response_clean (es : List CatEntry) (hes : safeEntries es = true) :
    qkL (renderResponse cleanStyle es) = renderResponse cleanStyle es := by
  unfold renderResponse
  rw [if_neg (by simp [cleanStyle])]
  simp only [List.append_nil]
  rw [show ('[' :: renderEntriesItems cleanStyle es ++ [']']) =
        '[' :: (renderEntriesItems cleanStyle es ++ (']' :: ([] : List Char))) from rfl,
    qkL_cons_nonword (show isWordChar '[' = false by decide),
    qkL_entries_clean es (safeEntries_mem hes) (']' :: []),
    qkL_cons_nonword (show isWordChar ']' = false by decide), qkL_nil]

lemma qkL_response_bare (es : List CatEntry) (hes : safeEntries es = true) :
    qkL (renderResponse bareKeyStyle es) = renderResponse cleanStyle es := by
  unfold renderResponse
  rw [if_neg (by simp [bareKeyStyle]), if_neg (by simp [cleanStyle])]
  simp only [List.append_nil]
  rw [show ('[' :: renderEntriesItems bareKeyStyle es ++ [']']) =
        '[' :: (renderEntriesItems bareKeyStyle es ++ (']' :: ([] : List Char))) from rfl,
    qkL_cons_nonword (show isWordChar '[' = false by decide),
    qkL_entries_bare es (safeEntries_mem hes) (']' :: []),
    qkL_cons_nonword (show isWordChar ']' = false by decide), qkL_nil]
  rfl

/-- C5 counterexample: the cleanup corrupts string content containing a
word character directly followed by a colon — the fenced variant of the
valid JSON array `["a:b"]` comes back as `None`, while `json.loads` on the
clean text succeeds. -/
theorem json_recovery_colon_cex :
    parse_json_response "```json\n[\"a:b\"]\n```" = none ∧
    jsonLoadsL ("[\"a:b\"]".data) = some (.arr [.str "a:b"]) := by
  exact ⟨by with_unfolding_all rfl, by with_unfolding_all rfl⟩


/-! ## The cleanup pipeline on the rendered response family -/

lemma renderResponse_last (st : RenderStyle) (es : List CatEntry) :
    (renderResponse st es).getLast? = some ']' := by
  unfold renderResponse
  exact List.getLast?_concat _

lemma response_strip_fixed (st : RenderStyle) (es : List CatEntry) :
    pyStripL (renderResponse st es) = renderResponse st es ∧
    stripFenceOpenL (renderResponse st es) = renderResponse st es ∧
    stripFenceCloseL (renderResponse st es) = renderResponse st es := by
  have hh : (renderResponse st es).head? = some '[' := rfl
  have hl : (renderResponse st es).getLast? = some ']' := renderResponse_last st es
  refine ⟨pyStripL_eq_self _ ?_ ?_, stripFenceOpenL_eq_self _ ?_,
    stripFenceCloseL_eq_self _ ?_⟩
  · intro c hc; rw [hh] at hc; cases hc; decide
  · intro c hc; rw [hl] at hc; cases hc; decide
  · intro c hc; rw [hh] at hc; cases hc; decide
  · intro c hc; rw [hl] at hc; cases hc; decide

lemma pjr_of_cleanup {l clean : List Char} (hcleanup : pjrCleanupL l = clean)
    {v : Json} (hload : jsonLoadsL clean = some v) :
    parse_json_response (String.mk l) = some v := by
  unfold parse_json_response
  dsimp only
  rw [hcleanup, hload]

lemma cleanup_clean (es : List CatEntry) (hes : safeEntries es = true) :
    pjrCleanupL (renderResponse cleanStyle es) = renderResponse cleanStyle es := by
  obtain ⟨h1, h2, h3⟩ := response_strip_fixed cleanStyle es
  unfold pjrCleanupL
  rw [h1, h2, h3,
    qn_renderResponse cleanStyle cleanStyle (by decide) (by decide) rfl rfl es hes,
    rtcL_response_plain cleanStyle rfl rfl rfl es hes, qkL_response_clean es hes]

lemma cleanup_fence (es : List CatEntry) (hes : safeEntries es = true) :
    pjrCleanupL (fenceWrap (renderResponse cleanStyle es)) =
      renderResponse cleanStyle es := by
  have hh : (fenceWrap (renderResponse cleanStyle es)).head? = some backtickChar := rfl
  have hl : (fenceWrap (renderResponse cleanStyle es)).getLast? = some backtickChar := by
    rw [show fenceWrap (renderResponse cleanStyle es) =
          (backtickChar :: backtickChar :: backtickChar :: 'j' :: 's' :: 'o' :: 'n' ::
            '\n' :: renderResponse cleanStyle es ++ ['\n', backtickChar, backtickChar]) ++
            [backtickChar] from by simp [fenceWrap]]
    exact List.getLast?_concat _
  unfold pjrCleanupL
  rw [pyStripL_eq_self _ (fun c hc => by rw [hh] at hc; cases hc; decide)
      (fun c hc => by rw [hl] at hc; cases hc; decide),
    stripFenceOpenL_fenceWrap (renderResponse cleanStyle es) '[' rfl (by decide),
    stripFenceCloseL_fenceTail _ ']' (renderResponse_last cleanStyle es) (by decide),
    qn_renderResponse cleanStyle cleanStyle (by decide) (by decide) rfl rfl es hes,
    rtcL_response_plain cleanStyle rfl rfl rfl es hes, qkL_response_clean es hes]

lemma cleanup_sq (es : List CatEntry) (hes : safeEntries es = true) :
    pjrCleanupL (renderResponse sqStyle es) = renderResponse cleanStyle es := by
  obtain ⟨h1, h2, h3⟩ := response_strip_fixed sqStyle es
  unfold pjrCleanupL
  rw [h1, h2, h3,
    qn_renderResponse sqStyle cleanStyle (by decide) (by decide) rfl rfl es hes,
    rtcL_response_plain cleanStyle rfl rfl rfl es hes, qkL_response_clean es hes]

lemma cleanup_smart (es : List CatEntry) (hes : safeEntries es = true) :
    pjrCleanupL (renderResponse smartStyle es) = renderResponse cleanStyle es := by
  obtain ⟨h1, h2, h3⟩ := response_strip_fixed smartStyle es
  unfold pjrCleanupL
  rw [h1, h2, h3,
    qn_renderResponse smartStyle cleanStyle (by decide) (by decide) rfl rfl es hes,
    rtcL_response_plain cleanStyle rfl rfl rfl es hes, qkL_response_clean es hes]

lemma cleanup_bare (es : List CatEntry) (hes : safeEntries es = true) :
    pjrCleanupL (renderResponse bareKeyStyle es) = renderResponse cleanStyle es := by
  obtain ⟨h1, h2, h3⟩ := response_strip_fixed bareKeyStyle es
  unfold pjrCleanupL
  rw [h1, h2, h3,
    qn_renderResponse bareKeyStyle bareKeyStyle (by decide) (by decide) rfl rfl es hes,
    rtcL_response_plain bareKeyStyle rfl rfl rfl es hes, qkL_response_bare es hes]

lemma cleanup_trailing (es : List CatEntry) (hes : safeEntries es = true) :
    pjrCleanupL (renderResponse trailingStyle es) = renderResponse cleanStyle es := by
  obtain ⟨h1, h2, h3⟩ := response_strip_fixed trailingStyle es
  unfold pjrCleanupL
  rw [h1, h2, h3,
    qn_renderResponse trailingStyle trailingStyle (by decide) (by decide) rfl rfl es hes,
    rtcL_response_trail es hes, qkL_response_clean es hes]

/-- C5 (amended): on classifier responses in the flat `(slug, categories,
tags)` schema whose string content is alphanumerics and spaces, the
defensive parser of `parse_json_response` recovers from every named
degradation — code fences, single quotes, smart quotes, unquoted keys,
trailing commas — the very array `json.loads` yields for the clean JSON
rendering.  (The unrestricted claim over every JSON array text is refuted
by `json_recovery_colon_cex`: the bare-key regex corrupts string content
containing `word:`.) -/
theorem json_recovery_schema (es : List CatEntry) (hsafe : safeEntries es = true)
    (v : Json) (hload : jsonLoadsL (renderResponse cleanStyle es) = some v) :
    parse_json_response (String.mk (renderResponse cleanStyle es)) = some v ∧
    parse_json_response (String.mk (fenceWrap (renderResponse cleanStyle es))) = some v ∧
    parse_json_response (String.mk (renderResponse sqStyle es)) = some v ∧
    parse_json_response (String.mk (renderResponse smartStyle es)) = some v ∧
    parse_json_response (String.mk (renderResponse bareKeyStyle es)) = some v ∧
    parse_json_response (String.mk (renderResponse trailingStyle es)) = some v :=
  ⟨pjr_of_cleanup (cleanup_clean es hsafe) hload,
    pjr_of_cleanup (cleanup_fence es hsafe) hload,
    pjr_of_cleanup (cleanup_sq es hsafe) hload,
    pjr_of_cleanup (cleanup_smart es hsafe) hload,
    pjr_of_cleanup (cleanup_bare es hsafe) hload,
    pjr_of_cleanup (cleanup_trailing es hsafe) hload⟩

/-- Witness for `json_recovery_schema` at the concrete response `catsW`:
the hypotheses hold by computation and the fenced variant parses back to
the structured array of the clean text. -/
theorem json_recovery_schema_witness :
    safeEntries catsW = true ∧
    jsonLoadsL (renderResponse cleanStyle catsW) = some catsWJson ∧
    parse_json_response (String.mk (fenceWrap (renderResponse cleanStyle catsW))) =
      some catsWJson ∧
    parse_json_response (String.mk (renderResponse bareKeyStyle catsW)) =
      some catsWJson :=
  ⟨by with_unfolding_all rfl, by with_unfolding_all rfl,
    (json_recovery_schema catsW (by with_unfolding_all rfl) catsWJson
      (by with_unfolding_all rfl)).2.1,
    (json_recovery_schema catsW (by with_unfolding_all rfl) catsWJson
      (by with_unfolding_all rfl)).2.2.2.2.1⟩

end Mealie
